import Mathlib

set_option allowUnsafeReducibility true

attribute [local semireducible] Rat.mul Rat.inv Rat.add Rat.sub Rat.ofScientific

/-!
# Verification of the mpcq submission-preparation subsystem

A shallow embedding of the submission-preparation and lifecycle-tracking
subsystem of the `mpcq` repository, together with theorems settling the
specification claims about it.

Embedding conventions:
* pyarrow/quivr tables become Lean lists of structures; a nullable column
  becomes an `Option` field.
* pyarrow `Table.join` (default `left outer`) becomes an order-preserving
  left outer join with full multiplicity (`List.flatMap` over matches).
* numpy float arithmetic (`np.percentile`, `np.digitize`, the `0.9 *` poll
  threshold) is modelled over `ℚ`.  At the scales exercised here the float
  computations are exact or the comparisons are robust, so the rational
  model coincides with the float behaviour on every input used in a theorem.
* Python exceptions become `Option`/`Except` results.
* Externally computed observation attributes (`calculate_observing_night`,
  `Timestamp.mjd()` from the `adam_core` dependency) are carried as fields
  of the observation record, since they are pure per-observation data that
  the repository only reads.
-/

namespace Mpcq

/-- One row of a `SourceCatalog` as used by `submissions.py` and `utils.py`:
the observation id, the timestamp as a (days, nanos) pair, the observatory
code, plus the derived per-night grouping key (`calculate_observing_night`)
and the fractional-day time value (`time.mjd()`), and the astrometric /
photometric payload columns read when building ADES rows. -/
structure SourceObs where
  id : String
  days : Int
  nanos : Int
  observatory_code : String
  night : Int
  mjd : ℚ
  ra : ℚ
  dec : ℚ
  ra_sigma : ℚ
  dec_sigma : ℚ
  mag : ℚ
  mag_sigma : ℚ
  filter : String
  deriving Repr, DecidableEq

/-- One row of `FittedOrbitMembers` restricted to the columns the subsystem
reads: the `(orbit_id, obs_id)` association. -/
structure OrbitMember where
  orbit_id : String
  obs_id : String
  deriving Repr, DecidableEq

/-- One row of the `MPCCrossmatch` table (submissions.py). -/
structure MPCCrossmatchRow where
  obs_id : String
  mpc_id : String
  time_difference : ℚ
  distance : ℚ
  status : Option String
  trksub : Option String
  deriving Repr, DecidableEq

/-- One row of the `DeepDrillingSummary` table (utils.py). -/
structure DDSummaryRow where
  orbit_id : String
  obs_id : String
  night : Int
  mjd : ℚ
  keep : Bool
  deriving Repr, DecidableEq

/-! ## numpy primitives used by `reduce_deep_drilling_observations` -/

/-- `np.linspace a b m`: `m` evenly spaced samples from `a` to `b`
inclusive; for `m = 1` numpy returns `[a]`. -/
def npLinspace (a b : ℚ) (m : Nat) : List ℚ :=
  if m = 0 then []
  else if m = 1 then [a]
  else (List.range m).map fun (i : Nat) => a + (b - a) * (i : ℚ) / ((m : ℚ) - 1)

/-- Sorted copy of a list of rationals (numpy sorts before interpolating
percentiles).  `insertionSort` is used throughout as the model of sorting
because it is structurally recursive (so concrete instances evaluate) and,
being stable, agrees with any other stable sort. -/
def sortedQ (xs : List ℚ) : List ℚ :=
  xs.insertionSort (· ≤ ·)

/-- `np.percentile xs q` with the default linear-interpolation method:
with `s` the sorted data of length `n`, the virtual position is
`pos = q (n-1) / 100`, and the result interpolates between the floor and
ceiling entries of `s` at that position. -/
def npPercentile (xs : List ℚ) (q : ℚ) : ℚ :=
  let s := sortedQ xs
  let n := s.length
  let pos : ℚ := q * (n - 1) / 100
  let i : Nat := min pos.floor.toNat (n - 1)
  let j : Nat := min (i + 1) (n - 1)
  let lo := s.getD i 0
  let hi := s.getD j 0
  lo + (pos - (i : ℚ)) * (hi - lo)

/-- `np.digitize x bins` (default `right=False`) for nondecreasing `bins`:
the index of the bin `x` falls in, i.e. the number of bin edges `≤ x`
(`searchsorted` with side `right`). -/
def npDigitize (x : ℚ) (bins : List ℚ) : Nat :=
  (bins.filter (· ≤ x)).length

/-! ## The per-night selection kernel of `reduce_deep_drilling_observations`

For an over-cap `(orbit_id, night)` group, utils.py lines 101-118: compute
the `max_obs_per_night` percentile values of the group's MJDs, digitize the
MJDs against them, and for each percentile position `p_i` take the *first*
index whose digitized bin equals `p_i + 1` (`np.where(mapped == p_i+1)[0][0]`,
an `IndexError` — modelled as `none` — when that bin is empty). -/

/-- Indices selected for percentile positions `p, p+1, …, p+c-1`:
for each position the first index of `mapped` holding that bin number
(1-based), failing if the bin is empty. -/
def ddSelectCount (mapped : List Nat) (p : Nat) : Nat → Option (List Nat)
  | 0 => some []
  | c + 1 => do
    let i ← mapped.findIdx? (· = p + 1)
    let rest ← ddSelectCount mapped (p + 1) c
    pure (i :: rest)

/-- The percentile bin edges for a group's MJDs:
`np.percentile(mjds, np.linspace(0, 100, m))`. -/
def ddBins (mjds : List ℚ) (m : Nat) : List ℚ :=
  (npLinspace 0 100 m).map (npPercentile mjds)

/-- The digitized bin number of every MJD of the group. -/
def ddMapped (mjds : List ℚ) (m : Nat) : List Nat :=
  mjds.map (npDigitize · (ddBins mjds m))

/-- The selected (kept) indices of an over-cap group, one per percentile. -/
def ddSelect (mjds : List ℚ) (m : Nat) : Option (List Nat) :=
  ddSelectCount (ddMapped mjds m) 0 m

/-- The `keep` column of a group's summary rows:
`np.isin(np.arange(len(obs_ids)), idx)`. -/
def ddKeepFlags (mjds : List ℚ) (m : Nat) : Option (List Bool) :=
  (ddSelect mjds m).map fun idx =>
    (List.range mjds.length).map fun i => idx.contains i

/-! ## `reduce_deep_drilling_observations` (utils.py lines 18-122) -/

/-- A row of `members_table` after the join with `observation_nights`
(utils.py line 56).  The join is pyarrow's default left outer join, so a
member whose `obs_id` is absent from the catalog keeps null night/mjd. -/
structure NightJoinRow where
  orbit_id : String
  obs_id : String
  night : Option Int
  mjd : Option ℚ
  deriving Repr, DecidableEq

/-- `members_table.join(observation_nights, "obs_id", "id")`: left outer
join with full multiplicity, preserving member order. -/
def leftJoinNights (members : List OrbitMember) (obss : List SourceObs) :
    List NightJoinRow :=
  members.flatMap fun m =>
    match obss.filter (fun o => o.id = m.obs_id) with
    | [] => [⟨m.orbit_id, m.obs_id, none, none⟩]
    | l => l.map fun o => ⟨m.orbit_id, m.obs_id, some o.night, some o.mjd⟩

/-- The rows of one `(orbit_id, night)` group, in table (input) order. -/
def groupRows (joined : List NightJoinRow) (o : String) (v : Int) :
    List NightJoinRow :=
  joined.filter fun r => r.orbit_id = o && r.night = some v

/-- Ascending `(orbit_id, night)` comparison used for the grouped table's
`sort_by` (utils.py lines 60-65). -/
def pairLe (a b : String × Int) : Bool :=
  a.1 < b.1 || (a.1 = b.1 && a.2 ≤ b.2)

/-- The `(orbit_id, night)` groups whose `night_count` exceeds the cap
(utils.py lines 69-71 and 86-88), ascending by orbit then night.  (The
`night` aggregate counts non-null values, so the null-night group never
exceeds the cap.) -/
def overCapPairs (joined : List NightJoinRow) (maxObs : Nat) :
    List (String × Int) :=
  let pairs := (joined.filterMap fun r => r.night.map fun v => (r.orbit_id, v)).dedup
  (pairs.insertionSort fun a b => pairLe a b).filter fun p =>
    maxObs < (groupRows joined p.1 p.2).length

/-- Summary rows for one over-cap group (utils.py lines 92-119): the kernel
applied to the group's MJDs in table order.  (MJDs in an over-cap group are
never null, since a null night implies a null mjd; `getD 0` is a dummy.) -/
def groupSummary (joined : List NightJoinRow) (maxObs : Nat)
    (o : String) (v : Int) : Option (List DDSummaryRow) :=
  let rows := groupRows joined o v
  let mjds := rows.map fun r => r.mjd.getD 0
  (ddKeepFlags mjds maxObs).map fun keeps =>
    (rows.zip keeps).map fun rk => ⟨o, rk.1.obs_id, v, rk.1.mjd.getD 0, rk.2⟩

/-- `reduce_deep_drilling_observations(orbit_members, observations,
max_obs_per_night)`: summary rows for every over-cap `(orbit_id, night)`
group; `none` models the `IndexError` raised when a percentile bin of some
over-cap group is empty. -/
def reduce_deep_drilling_observations (members : List OrbitMember)
    (obss : List SourceObs) (maxObs : Nat) : Option (List DDSummaryRow) :=
  let joined := leftJoinNights members obss
  ((overCapPairs joined maxObs).mapM fun p =>
    groupSummary joined maxObs p.1 p.2).map List.flatten

/-! ## `orbit_id_to_trksub`

Modelled from the spec: `orbit_id_to_trksub` is imported by submissions.py
from `.utils` but its definition is absent from src/ (only its tests and
call sites are present).  Spec §4.3: "Derive `trksub` deterministically from
`orbit_id`: the identifier must be at least 7 characters; `trksub` is `"t"`
concatenated with its last 6 characters.  Identifiers shorter than 7
characters are a contract violation (raise)." -/
def orbit_id_to_trksub (orbit_id : String) : Option String :=
  if 7 ≤ orbit_id.length then some ("t" ++ orbit_id.takeRight 6) else none

/-! ## `prepare_submission` (submissions.py lines 194-461) -/

/-- One row of the `SubmissionMembers` table (submissions.py lines 34-41). -/
structure SubmissionMember where
  submission_id : Int
  orbit_id : String
  trksub : String
  obssubid : String
  deep_drilling_filtered : Bool
  itf_obs_id : Option String
  submitted : Bool
  deriving Repr, DecidableEq

/-- One row of the `Identifications` table (identifications.py lines 9-21). -/
structure IdentRow where
  submission_id : Int
  orbit_id : String
  trksub : String
  obs_id : String
  mpc_obs_id : Option String
  mpc_trksub : Option String
  days : Int
  nanos : Int
  observatory_code : String
  deriving Repr, DecidableEq

/-- `Identifications.itf()`: the rows with a non-null `mpc_obs_id`. -/
def identItf (idents : List IdentRow) : List IdentRow :=
  idents.filter fun r => r.mpc_obs_id ≠ none

/-- One row of the `ADESObservations` table built at submissions.py lines
436-457, restricted to the columns the subsystem assigns. -/
structure AdesObs where
  trkSub : String
  obsSubID : String
  days : Int
  nanos : Int
  ra : ℚ
  dec : ℚ
  rmsRA : ℚ
  rmsDec : ℚ
  mag : ℚ
  rmsMag : ℚ
  band : String
  stn : String
  mode : String
  astCat : String
  deriving Repr, DecidableEq

/-- The Python exceptions `prepare_submission` can raise. -/
inductive PrepareError where
  /-- `IndexError` escaping `reduce_deep_drilling_observations`. -/
  | indexError
  /-- The `ValueError` of submissions.py line 329, carrying the first five
  offending crossmatch rows (`.to_dataframe()[:5]`). -/
  | crossmatchStatus (rows : List MPCCrossmatchRow)
  /-- `orbit_id_to_trksub` rejecting an identifier (contract violation). -/
  | identifierTooShort
  /-- quivr rejecting a null in a non-nullable column
  (`Identifications.days` / `Timestamp.days` from a failed join). -/
  | nullField
  /-- The `assert len(submission_members) == len(orbit_members)`
  at submissions.py line 459. -/
  | assertionFailed
  deriving Repr, DecidableEq

/-- A row of `orbit_members_table` as it stands after the observation,
deep-drilling and crossmatch joins in `prepare_submission`. -/
structure OMTRow where
  orbit_id : String
  obs_id : String
  obs : Option SourceObs
  deep_drilling_filtered : Bool
  mpc_obs_id : Option String
  mpc_trksub : Option String
  deriving Repr, DecidableEq

/-- Line 240: restrict `orbit_members` to orbits present in the
submission's orbit set. -/
def maskMembers (orbits : List String) (members : List OrbitMember) :
    List OrbitMember :=
  members.filter fun m => orbits.contains m.orbit_id

/-- Lines 245-264: join the members with the observation columns
(left outer join on `obs_id = id`). -/
def joinObservations (members : List OrbitMember) (obss : List SourceObs) :
    List (OrbitMember × Option SourceObs) :=
  members.flatMap fun m =>
    match obss.filter (fun o => o.id = m.obs_id) with
    | [] => [(m, none)]
    | l => l.map fun o => (m, some o)

/-- Lines 277-295: left outer join with the deep-drilling summary's
`(obs_id, keep)` columns, then `deep_drilling_filtered =
fill_null(invert(keep), False)`. -/
def joinDeepDrilling (rows : List (OrbitMember × Option SourceObs))
    (dds : List DDSummaryRow) : List OMTRow :=
  rows.flatMap fun mo =>
    match dds.filter (fun d => d.obs_id = mo.1.obs_id) with
    | [] => [⟨mo.1.orbit_id, mo.1.obs_id, mo.2, false, none, none⟩]
    | l => l.map fun d => ⟨mo.1.orbit_id, mo.1.obs_id, mo.2, !d.keep, none, none⟩

/-- Lines 309-319: the crossmatch rows that survive the candidate /
2-second / 2-arcsecond filter. -/
def crossmatchSurvivors (xm : List MPCCrossmatchRow) (obsIds : List String) :
    List MPCCrossmatchRow :=
  xm.filter fun r =>
    obsIds.contains r.obs_id && |r.time_difference| ≤ 2 / 86400 &&
      r.distance ≤ 2 / 3600

/-- Lines 327-328: the surviving rows whose (non-null) status differs from
`"I"`.  `pc.equal(status, "I")` is null on a null status and `pc.any`
skips nulls, so null-status rows never make the mask true. -/
def crossmatchOffending (survivors : List MPCCrossmatchRow) :
    List MPCCrossmatchRow :=
  survivors.filter fun r =>
    match r.status with
    | some s => s ≠ "I"
    | none => false

/-- Lines 334-340: left outer join with the surviving crossmatch rows'
`(obs_id, mpc_id, trksub)` columns. -/
def joinCrossmatch (rows : List OMTRow) (survivors : List MPCCrossmatchRow) :
    List OMTRow :=
  rows.flatMap fun r =>
    match survivors.filter (fun x => x.obs_id = r.obs_id) with
    | [] => [r]
    | l => l.map fun x => { r with mpc_obs_id := some x.mpc_id,
                                   mpc_trksub := x.trksub }

/-- Comparison of nullable sort keys: pyarrow `sort_by` places nulls at
the end. -/
def cmpOpt {α : Type} [Ord α] (a b : Option α) : Ordering :=
  match a, b with
  | some x, some y => compare x y
  | some _, none => .lt
  | none, some _ => .gt
  | none, none => .eq

/-- The ascending `(orbit_id, time.days, time.nanos, observatory_code)`
comparison of the `sort_by` at lines 348-355. -/
def omtLe (a b : OMTRow) : Bool :=
  ((compare a.orbit_id b.orbit_id).then
    ((cmpOpt (a.obs.map (·.days)) (b.obs.map (·.days))).then
      ((cmpOpt (a.obs.map (·.nanos)) (b.obs.map (·.nanos))).then
        (cmpOpt (a.obs.map (·.observatory_code))
          (b.obs.map (·.observatory_code)))))) ≠ .gt

/-- Lines 360-368: assemble the `SubmissionMembers` table; the trksub
derivation can reject a short identifier. -/
def mkSubmissionMembers (sid : Int) (rows : List OMTRow) :
    Option (List SubmissionMember) :=
  rows.mapM fun r =>
    (orbit_id_to_trksub r.orbit_id).map fun t =>
      ⟨sid, r.orbit_id, t, r.obs_id, r.deep_drilling_filtered,
        r.mpc_obs_id, false⟩

/-- Lines 379-411: build the `Identifications` table when at least one
non-filtered member has an ITF link: all sorted-table rows of the linked
orbits, minus the deep-drilling-filtered observation ids.  Construction
fails (`nullField`) if a required column (time, station) is null. -/
def mkIdentifications (sid : Int) (sortedRows : List OMTRow)
    (submission_members : List SubmissionMember) :
    Except PrepareError (List IdentRow) :=
  let filtered := submission_members.filter fun m => !m.deep_drilling_filtered
  if (filtered.filter fun m => m.itf_obs_id ≠ none) ≠ [] then
    let identOrbits :=
      ((filtered.filter fun m => m.itf_obs_id ≠ none).map (·.orbit_id)).dedup
    let ddObsIds :=
      (submission_members.filter (·.deep_drilling_filtered)).map (·.obssubid)
    let imf := (sortedRows.filter fun r => identOrbits.contains r.orbit_id).filter
      fun r => !ddObsIds.contains r.obs_id
    imf.mapM fun r =>
      match orbit_id_to_trksub r.orbit_id, r.obs with
      | some t, some o =>
          .ok ⟨sid, r.orbit_id, t, r.obs_id, r.mpc_obs_id, r.mpc_trksub,
            o.days, o.nanos, o.observatory_code⟩
      | none, _ => .error .identifierTooShort
      | _, none => .error .nullField
  else
    .ok []

/-- The ascending sort of the new-astrometry rows (lines 425-432), on the
member's orbit and the joined observation's time and station. -/
def smtLe (a b : SubmissionMember × Option SourceObs) : Bool :=
  ((compare a.1.orbit_id b.1.orbit_id).then
    ((cmpOpt (a.2.map (·.days)) (b.2.map (·.days))).then
      ((cmpOpt (a.2.map (·.nanos)) (b.2.map (·.nanos))).then
        (cmpOpt (a.2.map (·.observatory_code))
          (b.2.map (·.observatory_code)))))) ≠ .gt

/-- Lines 422-433: join the new members back onto the observation catalog
(left outer, `obssubid = id`) and sort. -/
def joinNewObservations (newMembers : List SubmissionMember)
    (obss : List SourceObs) : List (SubmissionMember × Option SourceObs) :=
  (newMembers.flatMap fun m =>
    match obss.filter (fun o => o.id = m.obssubid) with
    | [] => [(m, none)]
    | l => l.map fun o => (m, some o)).insertionSort fun a b => smtLe a b

/-- Lines 436-457: the ADES table of the new observations; a null time or
payload column (failed join) is rejected by the `Timestamp` /
`ADESObservations` constructors. -/
def mkAdes (astCat : String)
    (smt : List (SubmissionMember × Option SourceObs)) :
    Except PrepareError (List AdesObs) :=
  smt.mapM fun mo =>
    match mo.2 with
    | some o =>
        .ok ⟨mo.1.trksub, mo.1.obssubid, o.days, o.nanos, o.ra, o.dec,
          o.ra_sigma / 3600, o.dec_sigma / 3600, o.mag, o.mag_sigma,
          o.filter, o.observatory_code, "CCD", astCat⟩
    | none => .error .nullField

/-- Lines 239-301 of `prepare_submission`: the orbit mask, the observation
join, and the deep-drilling stage (the tagging join when a cap is given,
an all-false column when it is `None`). -/
def prepareOmt1 (orbits : List String) (orbit_members : List OrbitMember)
    (observations : List SourceObs) (max_obs_per_night : Option Nat) :
    Except PrepareError (List OMTRow) :=
  let members := maskMembers orbits orbit_members
  let omt0 := joinObservations members observations
  match max_obs_per_night with
  | some maxObs =>
      match reduce_deep_drilling_observations members observations maxObs with
      | some dds => .ok (joinDeepDrilling omt0 dds)
      | none => .error .indexError
  | none =>
      .ok (omt0.map fun mo =>
        (⟨mo.1.orbit_id, mo.1.obs_id, mo.2, false, none, none⟩ : OMTRow))

/-- Lines 348-461 of `prepare_submission`: the final sort, the member /
identification / ADES table construction, and the closing length
assertion (`memberCount` is the length of the masked orbit-member input
the assertion compares against). -/
def prepareFinalize (submission_id : Int) (memberCount : Nat)
    (observations : List SourceObs) (astrometric_catalog : String)
    (omt2 : List OMTRow) :
    Except PrepareError
      (List SubmissionMember × List AdesObs × List IdentRow) := do
  let sortedRows := omt2.insertionSort fun a b => omtLe a b
  let submission_members ←
    match mkSubmissionMembers submission_id sortedRows with
    | some sm => .ok sm
    | none => .error .identifierTooShort
  let identifications ← mkIdentifications submission_id sortedRows
    submission_members
  let itfObsIds := (identItf identifications).map (·.obs_id)
  let newMembers :=
    (submission_members.filter fun m => !m.deep_drilling_filtered).filter
      fun m => !itfObsIds.contains m.obssubid
  let ades ← mkAdes astrometric_catalog
    (joinNewObservations newMembers observations)
  if submission_members.length = memberCount then
    .ok (submission_members, ades, identifications)
  else
    .error .assertionFailed

/-- `prepare_submission` (submissions.py lines 194-461). -/
def prepare_submission (submission_id : Int) (orbits : List String)
    (orbit_members : List OrbitMember) (observations : List SourceObs)
    (max_obs_per_night : Option Nat)
    (mpc_crossmatch : Option (List MPCCrossmatchRow))
    (astrometric_catalog : String) :
    Except PrepareError
      (List SubmissionMember × List AdesObs × List IdentRow) := do
  let members := maskMembers orbits orbit_members
  let omt1 ← prepareOmt1 orbits orbit_members observations max_obs_per_night
  let omt2 ←
    match mpc_crossmatch with
    | some xm =>
        let survivors := crossmatchSurvivors xm (omt1.map (·.obs_id))
        if survivors ≠ [] then
          if crossmatchOffending survivors ≠ [] then
            .error (.crossmatchStatus ((crossmatchOffending survivors).take 5))
          else
            .ok (joinCrossmatch omt1 survivors)
        else
          .ok omt1
    | none => .ok omt1
  prepareFinalize submission_id members.length observations
    astrometric_catalog omt2

/-! ## `SQLQuivrTable.to_sql` append-upsert mode (qvsql.py lines 54-79)

A target table with a declared primary key is modelled as a list of
`(key, value)` pairs: `key` is the projection of a row to the primary-key
columns, `value` the projection to all remaining columns.  sqlite processes
the inserted rows in order; `ON CONFLICT DO UPDATE` with
`set_ = {non-key col: excluded[col]}` overwrites every non-key column of the
conflicting row and keeps the key.  Chunking (default 10,000 rows, one
statement per chunk, each committed) processes rows in the same overall
order, so it is invisible to the final state. -/

section QvSql

variable {K V : Type} [DecidableEq K]

/-- Insert one row with `ON CONFLICT (primary key) DO UPDATE`: on a key
conflict, overwrite the non-key columns of the existing row in place;
otherwise append the row. -/
def upsertRow (store : List (K × V)) (r : K × V) : List (K × V) :=
  if store.any fun s => s.1 = r.1 then
    store.map fun s => if s.1 = r.1 then (s.1, r.2) else s
  else
    store ++ [r]

/-- `to_sql(..., if_exists="append")`: upsert the rows in order. -/
def to_sql_append (store rows : List (K × V)) : List (K × V) :=
  rows.foldl upsertRow store

end QvSql

/-! ## `SubmissionManager` (manager.py) -/

/-- One row of the manager's `submissions` table (manager.py lines
280-297); the id is the caller-supplied string, timestamps are stored at
millisecond precision (modelled as epoch microseconds, `Option` for NULL).
-/
structure SubmissionRow where
  id : String
  mpc_submission_id : Option String
  orbits : Nat
  observations : Nat
  observations_submitted : Nat
  deep_drilling_observations : Nat
  new_observations : Nat
  new_observations_file : Option String
  new_observations_submitted : Bool
  new_observations_submitted_at : Option Nat
  itf_observations : Nat
  itf_identifications_file : Option String
  itf_identifications_submitted : Bool
  itf_identifications_submitted_at : Option Nat
  deriving Repr, DecidableEq

/-- One row of the manager's `submission_members` table (manager.py lines
267-278; string submission id). -/
structure StoredMember where
  submission_id : String
  orbit_id : String
  trksub : String
  obssubid : String
  deep_drilling_filtered : Bool
  itf_obs_id : Option String
  submitted : Bool
  deriving Repr, DecidableEq

/-- The manager's sqlite tracking database. -/
structure TrackingDB where
  submissions : List SubmissionRow
  submission_members : List StoredMember
  deriving Repr, DecidableEq

/-- The errors the modelled manager operations raise (all `ValueError` /
`FileNotFoundError` in the source). -/
inductive ManagerError where
  | missingSubmitter
  | duplicateSubmission
  | persistenceFailure
  | notFound
  | alreadySubmitted
  | invalidTimestamp
  deriving Repr, DecidableEq

/-- `round_to_nearest_millisecond` (manager.py lines 31-33) acting on the
microsecond field of a datetime:
`microseconds = np.ceil(t.microsecond / 1000) * 1000` followed by
`t.replace(microsecond=microseconds)`.  `replace` only accepts
microseconds in `0..999999`, so the result is `none` (a `ValueError`)
when the ceiling reaches `1000000`. -/
def round_to_nearest_millisecond (usec : Nat) : Option Nat :=
  let r := ((usec + 999) / 1000) * 1000
  if r ≤ 999999 then some r else none

/-- The persistence part of `SubmissionManager.prepare_submission`
(manager.py lines 456-571): the submitter guard (line 456), the duplicate-id
check against the stored submissions (lines 461-464), then the submission
row's `to_sql` followed by the members' chunked `to_sql` (lines 559-571) —
two separate writes, each chunk committed on its own, with no transaction
spanning them.  `membersFailAfter = some k` injects a persistence failure
in the members write after `k` rows were durably committed (the artifact
file writing of lines 476-536 is elided; it touches no database state). -/
def manager_prepare_submission (db : TrackingDB) (submitterSet : Bool)
    (sub : SubmissionRow) (members : List StoredMember)
    (membersFailAfter : Option Nat) :
    Except ManagerError Unit × TrackingDB :=
  if !submitterSet then
    (.error .missingSubmitter, db)
  else if db.submissions.any fun s => s.id = sub.id then
    (.error .duplicateSubmission, db)
  else
    let db1 := { db with submissions := db.submissions ++ [sub] }
    match membersFailAfter with
    | none =>
        (.ok (), { db1 with
          submission_members := db1.submission_members ++ members })
    | some k =>
        (.error .persistenceFailure, { db1 with
          submission_members := db1.submission_members ++ members.take k })

/-- `os.path.exists` / `os.remove` on an optional recorded artifact file
(manager.py lines 601-611): remove the file if it exists, silently move on
if it does not. -/
def removeIfExists (disk : List String) : Option String → List String
  | some f => if disk.contains f then disk.erase f else disk
  | none => disk

/-- `SubmissionManager.delete_prepared_submission` (manager.py lines
573-630).  `disk` is the set of artifact files present on disk; the result
pairs the new database with the new disk contents. -/
def delete_prepared_submission (db : TrackingDB) (disk : List String)
    (sid : String) : Except ManagerError (TrackingDB × List String) :=
  match db.submissions.find? fun s => s.id = sid with
  | none => .error .notFound
  | some sub =>
    if sub.new_observations_submitted || sub.itf_identifications_submitted then
      .error .alreadySubmitted
    else
      let disk1 := removeIfExists disk sub.new_observations_file
      let disk2 := removeIfExists disk1 sub.itf_identifications_file
      .ok ({ submissions := db.submissions.filter fun s => !(s.id = sid),
             submission_members :=
               db.submission_members.filter fun m =>
                 !(m.submission_id = sid) }, disk2)

/-- `SubmissionManager.label_new_observations_submitted` (manager.py lines
632-712): normalize the timestamp (UTC conversion elided — the model's
`submitted_at_usec` is already the UTC microsecond field) and round it;
fail if the flag is already set; otherwise set the flag, the timestamp and
the MPC id, and mark every member of the submission with no ITF link and
not deep-drilling-filtered as submitted. -/
def label_new_observations_submitted (db : TrackingDB) (sid : String)
    (mpc_sid : String) (submitted_at_usec : Nat) :
    Except ManagerError TrackingDB :=
  match round_to_nearest_millisecond submitted_at_usec with
  | none => .error .invalidTimestamp
  | some rounded =>
    match db.submissions.find? fun s => s.id = sid with
    | none => .error .notFound
    | some sub =>
      if sub.new_observations_submitted then
        .error .alreadySubmitted
      else
        .ok { db with
          submissions := db.submissions.map fun s =>
            if s.id = sid then
              { s with new_observations_submitted := true,
                       new_observations_submitted_at := some rounded,
                       mpc_submission_id := some mpc_sid }
            else s,
          submission_members := db.submission_members.map fun m =>
            if m.submission_id = sid && m.itf_obs_id = none &&
                m.deep_drilling_filtered = false then
              { m with submitted := true }
            else m }

/-- `SubmissionManager.await_new_observation_ingestion` (manager.py lines
792-832): poll attempt `i` yields `poll i` ingested records; succeed as
soon as a count strictly exceeds `0.9 * new_observations` (exact over ℚ:
`10 * count > 9 * new_observations`), else decrement the attempt budget.
Returns the boolean result together with the number of polls performed. -/
def await_new_observation_ingestion (new_observations : Nat)
    (poll : Nat → Nat) : Nat → Nat → Bool × Nat
  | 0, polled => (false, polled)
  | fuel + 1, polled =>
    let c := poll polled
    if 9 * new_observations < 10 * c then
      (true, polled + 1)
    else
      await_new_observation_ingestion new_observations poll fuel (polled + 1)

/-- Lookup of the row holding primary key `k` (the row sqlite's
`ON CONFLICT` clause resolves against). -/
def sqlLookup {K V : Type} [DecidableEq K] (store : List (K × V)) (k : K) :
    Option V :=
  (store.find? fun s => s.1 = k).map (·.2)

/-! ## Concrete inputs used by counterexamples and witnesses -/

/-- A single catalog observation used by the crossmatch scenarios. -/
def obsX1 : SourceObs :=
  ⟨"x1", 60000, 5, "W84", 1, 60000, 10, -5, 1, 1, 20, 1, "r"⟩

/-- A surviving crossmatch row with a *null* match status. -/
def xmNullRow : MPCCrossmatchRow :=
  ⟨"x1", "mpcobs1", 1/86400, 1/3600, none, some "K11T00A"⟩

/-- Observations of one night with input-order MJDs
`[1/2, 0, 2, 3, 4, 5, 6]`: seven observations, the *second* of which is the
earliest of the night. -/
def c2obss : List SourceObs :=
  [⟨"a", 60000, 0, "W84", 1, 1/2, 0, 0, 1, 1, 20, 1, "r"⟩,
   ⟨"b", 60000, 1, "W84", 1, 0, 0, 0, 1, 1, 20, 1, "r"⟩,
   ⟨"c", 60000, 2, "W84", 1, 2, 0, 0, 1, 1, 20, 1, "r"⟩,
   ⟨"d", 60000, 3, "W84", 1, 3, 0, 0, 1, 1, 20, 1, "r"⟩,
   ⟨"e", 60000, 4, "W84", 1, 4, 0, 0, 1, 1, 20, 1, "r"⟩,
   ⟨"f", 60000, 5, "W84", 1, 5, 0, 0, 1, 1, 20, 1, "r"⟩,
   ⟨"g", 60000, 6, "W84", 1, 6, 0, 0, 1, 1, 20, 1, "r"⟩]

/-- The orbit members attributing the seven `c2obss` observations to one
orbit. -/
def c2members : List OrbitMember :=
  (["a", "b", "c", "d", "e", "f", "g"]).map fun i => ⟨"orbitAAAA", i⟩

/-- The summary `reduce_deep_drilling_observations` produces on the
`c2members`/`c2obss` night with the default cap of 6. -/
def c2result : List DDSummaryRow :=
  [⟨"orbitAAAA", "a", 1, 1/2, true⟩,
   ⟨"orbitAAAA", "b", 1, 0, false⟩,
   ⟨"orbitAAAA", "c", 1, 2, true⟩,
   ⟨"orbitAAAA", "d", 1, 3, true⟩,
   ⟨"orbitAAAA", "e", 1, 4, true⟩,
   ⟨"orbitAAAA", "f", 1, 5, true⟩,
   ⟨"orbitAAAA", "g", 1, 6, true⟩]

/-- Seven observations of one night all taken at the *same* time value. -/
def c10obss : List SourceObs :=
  (["a", "b", "c", "d", "e", "f", "g"]).map fun i =>
    ⟨i, 60000, 0, "W84", 1, 5, 0, 0, 1, 1, 20, 1, "r"⟩

/-- The orbit members attributing the seven simultaneous `c10obss`
observations to one orbit. -/
def c10members : List OrbitMember :=
  (["a", "b", "c", "d", "e", "f", "g"]).map fun i => ⟨"orbitAAAA", i⟩

/-- A freshly prepared submission row (both flags false, an artifact file
recorded). -/
def subS1 : SubmissionRow :=
  ⟨"s1", none, 1, 2, 2, 0, 2, some "/subs/s1.psv", false, none, 0, none,
    false, none⟩

/-- A member row of submission `s1`. -/
def memS1 : StoredMember :=
  ⟨"s1", "orbitAAAA", "titAAAA", "x1", false, none, false⟩

/-- A store already holding submission `s1` and its member. -/
def dbS1 : TrackingDB := ⟨[subS1], [memS1]⟩

/-- The initial store for the C8 upsert scenario: keys 1, 2, 3. -/
def store8 : List (Nat × String) := [(1, "a"), (2, "b"), (3, "c")]

/-- The upserted rows for the C8 scenario: keys 3, 4, 5, key 3 carrying a
new non-key value. -/
def rows8 : List (Nat × String) := [(3, "c2"), (4, "d"), (5, "e")]

/-- A submission whose new observations were already marked submitted. -/
def subS2 : SubmissionRow :=
  ⟨"s2", some "mpc123", 1, 2, 2, 0, 2, none, true, some 1000, 0, none,
    false, none⟩

/-- A store holding the already-submitted submission `s2`. -/
def dbS2 : TrackingDB := ⟨[subS2], []⟩

/-- A surviving crossmatch row whose status is `"L"` (linked, not
isolated). -/
def xmLRow : MPCCrossmatchRow :=
  ⟨"x1", "mpcobs1", 1/86400, 1/3600, some "L", some "K11T00A"⟩

/-- The single orbit member of the crossmatch scenarios. -/
def memX1 : OrbitMember := ⟨"orbitAAAA", "x1"⟩

/-- The `orbit_members_table` row the crossmatch scenarios produce after
the deep-drilling stage. -/
def omtX1 : OMTRow := ⟨"orbitAAAA", "x1", some obsX1, false, none, none⟩

/-- Ten observations of one night evenly spaced in time (MJDs 0..9), in
ascending time order. -/
def c2evenObss : List SourceObs :=
  (List.range 10).map fun (k : Nat) =>
    ⟨"e" ++ toString k, 60000, (k : Int), "W84", 1, (k : ℚ), 0, 0, 1, 1,
      20, 1, "r"⟩

/-- The orbit members attributing the ten evenly spaced observations to
one orbit. -/
def c2evenMembers : List OrbitMember :=
  (List.range 10).map fun (k : Nat) => ⟨"orbitAAAA", "e" ++ toString k⟩

/-- The summary the reducer produces on the evenly spaced night with the
default cap of 6: ten rows, keeps at indices 0, 2, 4, 6, 8, 9. -/
def c2evenResult : List DDSummaryRow :=
  (List.range 10).map fun (k : Nat) =>
    ⟨"orbitAAAA", "e" ++ toString k, 1, (k : ℚ),
      decide (k % 2 = 0 ∨ k = 9)⟩

/-- The member table `prepare_submission` returns on the single-member
scenario (`memX1` against `obsX1`, cap 6, no crossmatch). -/
def smW : List SubmissionMember :=
  [⟨7, "orbitAAAA", "titAAAA", "x1", false, none, false⟩]

/-- The ADES table `prepare_submission` returns on the single-member
scenario. -/
def adesW : List AdesObs :=
  [⟨"titAAAA", "x1", 60000, 5, 10, -5, 1/3600, 1/3600, 20, 1, "r", "W84",
    "CCD", "Gaia2"⟩]

/-! # Theorems -/

/-- **C4.** trksub derivation is a pure function of `orbit_id`: for every
identifier of at least 7 characters the derived trksub is `"t"` ++ the
identifier's last 6 characters, and every shorter identifier is rejected
(an error).  (Settled against the spec-modelled `orbit_id_to_trksub`,
whose definition is absent from src/.) -/
theorem C4_trksub_derivation (s : String) :
    (7 ≤ s.length → orbit_id_to_trksub s = some ("t" ++ s.takeRight 6)) ∧
    (s.length < 7 → orbit_id_to_trksub s = none) := by
  constructor
  · intro h
    unfold orbit_id_to_trksub
    rw [if_pos h]
  · intro h
    unfold orbit_id_to_trksub
    rw [if_neg (by omega)]

/-- Witness for C4: the 32-character identifier of the repository's test
maps to `"tc0fd45"`, and a 6-character identifier is rejected. -/
theorem C4_trksub_derivation_witness :
    orbit_id_to_trksub "073273eff323476e8dfa3faac8c0fd45" = some "tc0fd45" ∧
    orbit_id_to_trksub "dfa3fa" = none := by
  constructor
  · have h := (C4_trksub_derivation "073273eff323476e8dfa3faac8c0fd45").1
      (by decide)
    rw [h]
    rfl
  · exact (C4_trksub_derivation "dfa3fa").2 (by decide)

/-- **C6** (code bug).  `round_to_nearest_millisecond` uses `np.ceil`, so a
datetime with microsecond field 1400 is stored with microsecond 2000 even
though 1000 is strictly nearer (distance 400 vs 600) — the function's own
name and the spec say *nearest* — and a microsecond field of 999500 makes
`t.replace(microsecond=1000000)` raise a `ValueError` instead of rounding.
-/
theorem C6_round_ceil_bug :
    round_to_nearest_millisecond 1400 = some 2000 ∧
    1400 - 1000 < 2000 - 1400 ∧
    round_to_nearest_millisecond 999500 = none := by decide

/-- The waiter returns `false` after consuming its whole attempt budget
when every poll stays at or below the strict 90% threshold. -/
theorem await_false_of_low (n : Nat) (poll : Nat → Nat) :
    ∀ fuel polled, (∀ t, t < fuel → 10 * poll (polled + t) ≤ 9 * n) →
      await_new_observation_ingestion n poll fuel polled =
        (false, polled + fuel) := by
  intro fuel
  induction fuel with
  | zero => intro polled _; simp [await_new_observation_ingestion]
  | succ k ih =>
    intro polled h
    have h0 : 10 * poll polled ≤ 9 * n := by simpa using h 0 (Nat.succ_pos k)
    have hrec := ih (polled + 1) fun t ht => by
      have h' := h (t + 1) (by omega)
      have heq : polled + (t + 1) = polled + 1 + t := by omega
      rw [heq] at h'
      exact h'
    simp only [await_new_observation_ingestion]
    rw [if_neg (by omega), hrec]
    congr 1
    omega

/-- The waiter returns `true` right after the first poll that strictly
exceeds the 90% threshold. -/
theorem await_true_at (n : Nat) (poll : Nat → Nat) :
    ∀ fuel polled j, j < fuel → 9 * n < 10 * poll (polled + j) →
      (∀ t, t < j → 10 * poll (polled + t) ≤ 9 * n) →
      await_new_observation_ingestion n poll fuel polled =
        (true, polled + j + 1) := by
  intro fuel
  induction fuel with
  | zero => intro polled j hj _ _; omega
  | succ k ih =>
    intro polled j hj hhit hlow
    match j with
    | 0 =>
      simp only [await_new_observation_ingestion]
      rw [if_pos (by simpa using hhit)]
    | j' + 1 =>
      have h0 : 10 * poll polled ≤ 9 * n := by
        simpa using hlow 0 (Nat.succ_pos j')
      have hrec := ih (polled + 1) j' (by omega)
        (by
          have heq : polled + (j' + 1) = polled + 1 + j' := by omega
          rw [heq] at hhit
          exact hhit)
        (fun t ht => by
          have h' := hlow (t + 1) (by omega)
          have heq : polled + (t + 1) = polled + 1 + t := by omega
          rw [heq] at h'
          exact h')
      simp only [await_new_observation_ingestion]
      rw [if_neg (by omega), hrec]
      congr 1
      omega

/-- **C7** (amended).  The ingestion waiter returns `true` as soon as a
polled count *strictly exceeds* 90% of the submission's expected
new-observation count (after exactly that one poll), and returns `false`
after exactly `max_attempts` polls when every poll stays at or below the
threshold; it never raises on a low count (the model is total). -/
theorem C7_ingestion_waiter (n : Nat) (poll : Nat → Nat)
    (maxAttempts j : Nat) :
    ((∀ t, t < maxAttempts → 10 * poll t ≤ 9 * n) →
      await_new_observation_ingestion n poll maxAttempts 0 =
        (false, maxAttempts)) ∧
    (j < maxAttempts → 9 * n < 10 * poll j →
      (∀ t, t < j → 10 * poll t ≤ 9 * n) →
      await_new_observation_ingestion n poll maxAttempts 0 =
        (true, j + 1)) := by
  constructor
  · intro h
    simpa using await_false_of_low n poll maxAttempts 0 (by simpa using h)
  · intro h1 h2 h3
    simpa using await_true_at n poll maxAttempts 0 j h1 (by simpa using h2)
      (by simpa using h3)

/-- Witness for C7: expecting 100 new observations, a first poll of 95
returns `true` with a single poll; polls of 10 with `max_attempts = 3`
return `false` after exactly 3 polls. -/
theorem C7_ingestion_waiter_witness :
    await_new_observation_ingestion 100 (fun _ => 95) 30 0 = (true, 1) ∧
    await_new_observation_ingestion 100 (fun _ => 10) 3 0 = (false, 3) := by
  constructor
  · exact (C7_ingestion_waiter 100 (fun _ => 95) 30 0).2 (by decide)
      (by decide) (fun t ht => absurd ht (Nat.not_lt_zero t))
  · exact (C7_ingestion_waiter 100 (fun _ => 10) 3 0).1 (fun t _ => by decide)

/-- **C7** counterexample.  A poll count of exactly 90% of an expected 100
(i.e. 90, which *reaches* the claimed ≥ 90% threshold) does **not** make
the waiter succeed: the code tests `counts > 0.9 * new_observations`
strictly, so with one attempt the waiter returns `false`. -/
theorem C7_counterexample :
    10 * 90 = 9 * 100 ∧
    await_new_observation_ingestion 100 (fun _ => 90) 1 0 = (false, 1) := by
  decide

/-- **C10.** The deep-drilling reducer is not total: on a seven-observation
night whose time values are all equal (an over-cap group for the default
cap of 6), every MJD is digitized into the last percentile bin, the first
bin is empty, and `np.where(mapped == 1)[0][0]` raises an `IndexError`
(modelled as `none`) instead of returning a summary. -/
theorem C10_reducer_index_error :
    (groupRows (leftJoinNights c10members c10obss) "orbitAAAA" 1).length = 7 ∧
    reduce_deep_drilling_observations c10members c10obss 6 = none := by
  decide

/-- **C5** counterexample.  Creating a fresh submission in an empty store
with a persistence failure during the members write (after 0 member rows
were committed) reports an error but leaves the submission row durably
visible with no member rows: a partially-written submission remains, so
create is *not* atomic (the submission `to_sql` and the members `to_sql`
are separate, separately committed writes). -/
theorem C5_counterexample :
    manager_prepare_submission ⟨[], []⟩ true subS1 [memS1] (some 0) =
      (.error .persistenceFailure, ⟨[subS1], []⟩) := by
  rfl

/-- **C5** (amended).  Preparing a submission whose id is already present
fails with DuplicateSubmissionError and adds no rows; but on a persistence
failure during the members write, the already-committed submission row
(and any already-committed member chunks) remain visible — the store only
reports the failure, it does not roll back. -/
theorem C5_create_duplicate_guard_not_atomic (db : TrackingDB)
    (sub : SubmissionRow) (members : List StoredMember) :
    ((db.submissions.any fun s => s.id = sub.id) = true →
      ∀ fail, manager_prepare_submission db true sub members fail =
        (.error .duplicateSubmission, db)) ∧
    ((db.submissions.any fun s => s.id = sub.id) = false →
      ∀ k, manager_prepare_submission db true sub members (some k) =
        (.error .persistenceFailure,
          ⟨db.submissions ++ [sub],
            db.submission_members ++ members.take k⟩)) := by
  constructor
  · intro h fail
    simp [manager_prepare_submission, h]
  · intro h k
    simp [manager_prepare_submission, h]

/-- Witness for C5: re-creating `s1` in a store already holding it fails
with the duplicate error and changes nothing. -/
theorem C5_create_duplicate_guard_witness :
    manager_prepare_submission dbS1 true subS1 [memS1] none =
      (.error .duplicateSubmission, dbS1) := by
  exact (C5_create_duplicate_guard_not_atomic dbS1 subS1 [memS1]).1
    (by decide) none

/-- **C9** counterexample.  Submission `s1` records the artifact file
`/subs/s1.psv`, the disk holds no files at all, and both submitted flags
are false — yet `delete_prepared_submission` succeeds silently (the code
only removes a file `if os.path.exists(...)`), removing the database rows
and never reporting the missing artifact. -/
theorem C9_counterexample :
    subS1.new_observations_file = some "/subs/s1.psv" ∧
    delete_prepared_submission dbS1 [] "s1" = .ok (⟨[], []⟩, []) := by
  exact ⟨rfl, rfl⟩

/-- **C9** (amended).  Delete fails (leaving the store unchanged) when
either submitted flag is true; when both are false it removes the
submission row, all of its member rows, and those artifact files that are
present on disk — artifact files recorded for the submission but missing
on disk are silently skipped, not reported. -/
theorem C9_delete_skips_missing_artifacts (db : TrackingDB)
    (disk : List String) (sid : String) (sub : SubmissionRow)
    (h : (db.submissions.find? fun s => s.id = sid) = some sub) :
    ((sub.new_observations_submitted || sub.itf_identifications_submitted) =
        true →
      delete_prepared_submission db disk sid = .error .alreadySubmitted) ∧
    (sub.new_observations_submitted = false →
      sub.itf_identifications_submitted = false →
      delete_prepared_submission db disk sid =
        .ok (⟨db.submissions.filter fun s => !(s.id = sid),
              db.submission_members.filter fun m => !(m.submission_id = sid)⟩,
          removeIfExists (removeIfExists disk sub.new_observations_file)
            sub.itf_identifications_file)) ∧
    (∀ f, f ∉ disk → removeIfExists disk (some f) = disk) := by
  refine ⟨?_, ?_, ?_⟩
  · intro hflag
    simp [delete_prepared_submission, h, hflag]
  · intro h1 h2
    simp [delete_prepared_submission, h, h1, h2]
  · intro f hf
    simp [removeIfExists, hf]

/-- Witness for C9: deleting the already-submitted `s2` fails; deleting
the unsubmitted `s1` with its artifact present removes the rows and the
file. -/
theorem C9_delete_witness :
    delete_prepared_submission dbS2 [] "s2" = .error .alreadySubmitted ∧
    delete_prepared_submission dbS1 ["/subs/s1.psv"] "s1" =
      .ok (⟨[], []⟩, []) := by
  constructor
  · exact (C9_delete_skips_missing_artifacts dbS2 [] "s2" subS2 (by decide)).1
      (by decide)
  · have h := (C9_delete_skips_missing_artifacts dbS1 ["/subs/s1.psv"] "s1"
      subS1 (by decide)).2.1 (by decide) (by decide)
    rw [h]
    rfl

/-- **C2** counterexample.  A seven-observation night (cap 6) whose input
order is *not* sorted by time: MJDs `[1/2, 0, 2, 3, 4, 5, 6]`.  The
reduction succeeds and keeps exactly 6 observations including the latest,
but the earliest observation of the night (`"b"`, MJD 0, the unique
minimum) is **not** kept: the first index landing in percentile bin 1 is
the observation with MJD 1/2, not the minimum. -/
theorem C2_counterexample :
    reduce_deep_drilling_observations c2members c2obss 6 = some c2result ∧
    c2result[1]? = some ⟨"orbitAAAA", "b", 1, 0, false⟩ ∧
    (∀ r ∈ c2result, 0 ≤ r.mjd) ∧
    (c2result.filter (·.keep)).length = 6 := by
  decide

/-- **C3** counterexample.  A crossmatch row that survives the candidate /
2-second / 2-arcsecond filter but carries a **null** match status — a
"status value other than I" — does *not* make `prepare_submission` fail:
`pc.equal(status, "I")` is null on a null status and `pc.any` skips nulls,
so the build succeeds and the row is silently treated as an isolated match
(it becomes an identification). -/
theorem C3_counterexample :
    crossmatchSurvivors [xmNullRow] ["x1"] = [xmNullRow] ∧
    xmNullRow.status = none ∧
    prepare_submission 7 ["orbitAAAA"] [memX1] [obsX1] (some 6)
      (some [xmNullRow]) "Gaia2" =
      .ok ([⟨7, "orbitAAAA", "titAAAA", "x1", false, some "mpcobs1", false⟩],
        [],
        [⟨7, "orbitAAAA", "titAAAA", "x1", some "mpcobs1", some "K11T00A",
          60000, 5, "W84"⟩]) := by
  exact ⟨rfl, rfl, rfl⟩

/-- **C3** (amended).  If any surviving crossmatch row has a *non-null*
status other than `"I"`, `prepare_submission` fails with the
crossmatch-status error carrying the offending rows (truncated to the
first five), never silently skipping them; every row carried by the error
has a non-null non-`"I"` status.  (Null-status survivors do not trigger
the error — see the counterexample.) -/
theorem C3_crossmatch_status_error
    (sid : Int) (orbits : List String) (members : List OrbitMember)
    (obss : List SourceObs) (maxObs : Option Nat)
    (xm : List MPCCrossmatchRow) (astCat : String)
    (omt1 : List OMTRow) (r : MPCCrossmatchRow) (s : String)
    (h1 : prepareOmt1 orbits members obss maxObs = .ok omt1)
    (hr : r ∈ crossmatchSurvivors xm (omt1.map (·.obs_id)))
    (hs : r.status = some s) (hne : s ≠ "I") :
    prepare_submission sid orbits members obss maxObs (some xm) astCat =
      .error (.crossmatchStatus
        ((crossmatchOffending
          (crossmatchSurvivors xm (omt1.map (·.obs_id)))).take 5)) ∧
    r ∈ crossmatchOffending (crossmatchSurvivors xm (omt1.map (·.obs_id))) ∧
    (∀ x ∈ crossmatchOffending (crossmatchSurvivors xm (omt1.map (·.obs_id))),
      ∃ t, x.status = some t ∧ t ≠ "I") := by
  have hmem : r ∈ crossmatchOffending
      (crossmatchSurvivors xm (omt1.map (·.obs_id))) := by
    unfold crossmatchOffending
    refine List.mem_filter.mpr ⟨hr, ?_⟩
    rw [hs]
    simpa using hne
  have hsurv : crossmatchSurvivors xm (omt1.map (·.obs_id)) ≠ [] :=
    List.ne_nil_of_mem hr
  have hoff : crossmatchOffending
      (crossmatchSurvivors xm (omt1.map (·.obs_id))) ≠ [] :=
    List.ne_nil_of_mem hmem
  refine ⟨?_, hmem, ?_⟩
  · simp [prepare_submission, h1, hsurv, hoff, Bind.bind, Except.bind]
  · intro x hx
    have hp := (List.mem_filter.mp hx).2
    cases hstat : x.status with
    | none => rw [hstat] at hp; simp at hp
    | some t =>
      rw [hstat] at hp
      exact ⟨t, rfl, by simpa using hp⟩

/-- Witness for C3: a single surviving crossmatch row with status `"L"`
(linked) makes the build fail with the crossmatch-status error carrying
that row. -/
theorem C3_crossmatch_status_error_witness :
    prepare_submission 7 ["orbitAAAA"] [memX1] [obsX1] (some 6)
      (some [xmLRow]) "Gaia2" =
      .error (.crossmatchStatus [xmLRow]) := by
  have h := (C3_crossmatch_status_error 7 ["orbitAAAA"] [memX1] [obsX1]
    (some 6) [xmLRow] "Gaia2" [omtX1] xmLRow "L" rfl (by decide) rfl
    (by decide)).1
  rw [h]
  rfl

section QvSqlProofs

variable {K V : Type} [DecidableEq K]

/-- Upserting a conflicting row leaves the stored keys unchanged. -/
theorem upsertRow_map_fst_of_conflict (store : List (K × V)) (r : K × V)
    (h : (store.any fun s => s.1 = r.1) = true) :
    (upsertRow store r).map Prod.fst = store.map Prod.fst := by
  unfold upsertRow
  rw [if_pos h, List.map_map]
  apply List.map_congr_left
  intro s _
  by_cases hs : s.1 = r.1 <;> simp [hs]

/-- Upserting a non-conflicting row appends its key. -/
theorem upsertRow_map_fst_of_fresh (store : List (K × V)) (r : K × V)
    (h : (store.any fun s => s.1 = r.1) = false) :
    (upsertRow store r).map Prod.fst = store.map Prod.fst ++ [r.1] := by
  unfold upsertRow
  rw [if_neg (by simp [h]), List.map_append]
  rfl

/-- Key membership after one upsert: the old keys plus the row's key. -/
theorem mem_map_fst_upsertRow (store : List (K × V)) (r : K × V) (k : K) :
    k ∈ (upsertRow store r).map Prod.fst ↔
      k ∈ store.map Prod.fst ∨ k = r.1 := by
  by_cases h : (store.any fun s => s.1 = r.1) = true
  · rw [upsertRow_map_fst_of_conflict store r h]
    constructor
    · exact Or.inl
    · rintro (hk | hk)
      · exact hk
      · obtain ⟨s, hs, hsk⟩ := List.any_eq_true.mp h
        subst hk
        exact List.mem_map.mpr ⟨s, hs, by simpa using hsk⟩
  · rw [upsertRow_map_fst_of_fresh store r (Bool.not_eq_true _ ▸ h)]
    simp

/-- One upsert keeps the stored keys pairwise distinct. -/
theorem nodup_map_fst_upsertRow (store : List (K × V)) (r : K × V)
    (h : (store.map Prod.fst).Nodup) :
    ((upsertRow store r).map Prod.fst).Nodup := by
  by_cases hc : (store.any fun s => s.1 = r.1) = true
  · rwa [upsertRow_map_fst_of_conflict store r hc]
  · rw [upsertRow_map_fst_of_fresh store r (Bool.not_eq_true _ ▸ hc)]
    rw [List.nodup_append]
    refine ⟨h, List.nodup_singleton _, ?_⟩
    intro a ha hb
    have har : a = r.1 := by simpa using hb
    subst har
    obtain ⟨s, hs, hsk⟩ := List.mem_map.mp ha
    exact absurd (List.any_eq_true.mpr ⟨s, hs, by simpa using hsk⟩) hc

/-- After upserting a row, looking its key up yields the new value: the
non-key columns were overwritten (conflict) or the row inserted (fresh). -/
theorem sqlLookup_upsertRow_self (store : List (K × V)) (r : K × V) :
    sqlLookup (upsertRow store r) r.1 = some r.2 := by
  by_cases hc : (store.any fun s => s.1 = r.1) = true
  · unfold upsertRow
    rw [if_pos hc]
    induction store with
    | nil => simp at hc
    | cons s t ih =>
      by_cases hs : s.1 = r.1
      · simp [sqlLookup, List.find?, hs]
      · have ht : (t.any fun x => x.1 = r.1) = true := by
          rcases List.any_eq_true.mp hc with ⟨x, hx, hxk⟩
          rcases List.mem_cons.mp hx with hx1 | hx2
          · exact absurd (by simpa [hx1] using hxk) hs
          · exact List.any_eq_true.mpr ⟨x, hx2, hxk⟩
        have := ih ht
        simpa [sqlLookup, List.find?, hs] using this
  · unfold upsertRow
    rw [if_neg (by simp [hc])]
    have hnone : store.find? (fun s => s.1 = r.1) = none :=
      List.find?_eq_none.mpr fun x hx => by
        intro hxk
        exact hc (List.any_eq_true.mpr ⟨x, hx, hxk⟩)
    unfold sqlLookup
    rw [List.find?_append, hnone]
    simp [List.find?]

/-- An in-place overwrite of the rows keyed `r.1` is invisible to a
`find?` for any other key. -/
theorem find?_conflict_update_ne (t : List (K × V)) (r : K × V) (k : K)
    (hk : k ≠ r.1) :
    (t.map fun s => if s.1 = r.1 then (s.1, r.2) else s).find?
      (fun s => s.1 = k) = t.find? fun s => s.1 = k := by
  induction t with
  | nil => rfl
  | cons s t ih =>
    by_cases hs1 : s.1 = r.1
    · have hsk : ¬(s.1 = k) := fun h => hk (h.symm.trans hs1)
      rw [List.map_cons, if_pos hs1,
        List.find?_cons_of_neg _ (by simpa using hsk),
        List.find?_cons_of_neg _ (by simpa using hsk), ih]
    · by_cases hpk : (s.1 = k)
      · rw [List.map_cons, if_neg hs1,
          List.find?_cons_of_pos _ (by simpa using hpk),
          List.find?_cons_of_pos _ (by simpa using hpk)]
      · rw [List.map_cons, if_neg hs1,
          List.find?_cons_of_neg _ (by simpa using hpk),
          List.find?_cons_of_neg _ (by simpa using hpk), ih]

/-- Upserting a row does not disturb the lookup of any other key. -/
theorem sqlLookup_upsertRow_ne (store : List (K × V)) (r : K × V) (k : K)
    (hk : k ≠ r.1) :
    sqlLookup (upsertRow store r) k = sqlLookup store k := by
  by_cases hc : (store.any fun s => s.1 = r.1) = true
  · unfold upsertRow sqlLookup
    rw [if_pos hc, find?_conflict_update_ne store r k hk]
  · unfold upsertRow sqlLookup
    rw [if_neg (by simp [hc]), List.find?_append]
    have hsingle : List.find? (fun s => s.1 = k) [r] = none := by
      apply List.find?_eq_none.mpr
      intro x hx
      simp only [List.mem_singleton] at hx
      subst hx
      simp only [decide_eq_true_eq]
      exact fun h => hk h.symm
    rw [hsingle]
    cases store.find? fun s => s.1 = k <;> rfl

/-- **C8.** Bulk write in append-upsert mode, for every target collection
with a declared primary key (rows modelled as `(key, non-key columns)`
pairs, the store holding pairwise-distinct keys): rows with absent keys
are inserted, a primary-key conflict overwrites all non-key columns of the
existing row while keeping the key.  Precisely: stored keys stay pairwise
distinct, a key is present afterwards iff it was present before or occurs
among the upserted rows, a key not touched by the upserted rows keeps its
value, and a key touched by them ends with the value of the *last*
upserted row carrying it. -/
theorem C8_to_sql_append_upsert (store rows : List (K × V))
    (h : (store.map Prod.fst).Nodup) :
    ((to_sql_append store rows).map Prod.fst).Nodup ∧
    (∀ k, k ∈ (to_sql_append store rows).map Prod.fst ↔
      k ∈ store.map Prod.fst ∨ k ∈ rows.map Prod.fst) ∧
    (∀ k, rows.filter (fun x => x.1 = k) = [] →
      sqlLookup (to_sql_append store rows) k = sqlLookup store k) ∧
    (∀ k x, (rows.filter (fun y => y.1 = k)).getLast? = some x →
      sqlLookup (to_sql_append store rows) k = some x.2) := by
  induction rows generalizing store with
  | nil =>
    refine ⟨h, fun k => by simp [to_sql_append], fun k _ => rfl, ?_⟩
    intro k x hx
    simp at hx
  | cons r rs ih =>
    have hstep : to_sql_append store (r :: rs) =
        to_sql_append (upsertRow store r) rs := rfl
    obtain ⟨ih1, ih2, ih3, ih4⟩ :=
      ih (upsertRow store r) (nodup_map_fst_upsertRow store r h)
    refine ⟨hstep ▸ ih1, ?_, ?_, ?_⟩
    · intro k
      rw [hstep, ih2 k, mem_map_fst_upsertRow store r k]
      simp only [List.map_cons, List.mem_cons]
      tauto
    · intro k hfil
      have hr : ¬(r.1 = k) := by
        intro hrk
        simp [List.filter, hrk] at hfil
      have hrs : rs.filter (fun x => x.1 = k) = [] := by
        simpa [List.filter, hr] using hfil
      rw [hstep, ih3 k hrs,
        sqlLookup_upsertRow_ne store r k (fun hk => hr hk.symm)]
    · intro k x hx
      by_cases hr : r.1 = k
      · have hcons : (r :: rs).filter (fun y => y.1 = k) =
            r :: rs.filter (fun y => y.1 = k) := by
          simp [List.filter, hr]
        rw [hcons] at hx
        rcases hrs : rs.filter (fun y => y.1 = k) with _ | ⟨z, zs⟩
        · rw [hrs] at hx
          simp at hx
          rw [hstep, ih3 k hrs, ← hx, ← hr]
          exact sqlLookup_upsertRow_self store r
        · rw [hrs] at hx
          rw [List.getLast?_cons_cons] at hx
          rw [hstep]
          exact ih4 k x (by rw [hrs]; exact hx)
      · have hrs : (r :: rs).filter (fun y => y.1 = k) =
            rs.filter (fun y => y.1 = k) := by
          simp [List.filter, hr]
        rw [hrs] at hx
        rw [hstep]
        exact ih4 k x hx

end QvSqlProofs

/-- Witness for C8: a store with keys `{1,2,3}` upserted with keys
`{3,4,5}` (key 3 carrying the new non-key value `"c2"`) ends with exactly
the keys `{1,2,3,4,5}`, key 3's non-key column reflecting the second
write and key 1's its original value. -/
theorem C8_to_sql_append_upsert_witness :
    (to_sql_append store8 rows8).map Prod.fst = [1, 2, 3, 4, 5] ∧
    sqlLookup (to_sql_append store8 rows8) 3 = some "c2" ∧
    sqlLookup (to_sql_append store8 rows8) 1 = some "a" := by
  obtain ⟨h1, h2, h3, h4⟩ := C8_to_sql_append_upsert store8 rows8 (by decide)
  refine ⟨by decide, ?_, ?_⟩
  · have := h4 3 (3, "c2") (by decide)
    simpa using this
  · have := h3 1 (by decide)
    rw [this]
    decide

/-! ## Properties of the deep-drilling selection kernel (for C2) -/

/-- On success, `ddSelectCount` returns one index per requested percentile
position, each the first index of its digitized bin. -/
theorem ddSelectCount_spec (mapped : List Nat) :
    ∀ c p idx, ddSelectCount mapped p c = some idx →
      idx.length = c ∧
      ∀ j (hj : j < idx.length),
        mapped.findIdx? (· = p + j + 1) = some (idx.get ⟨j, hj⟩) := by
  intro c
  induction c with
  | zero =>
    intro p idx h
    simp only [ddSelectCount] at h
    cases h
    exact ⟨rfl, fun j hj => by simp at hj⟩
  | succ c ih =>
    intro p idx h
    simp only [ddSelectCount] at h
    cases hfind : mapped.findIdx? (· = p + 1) with
    | none => rw [hfind] at h; simp at h
    | some i =>
      rw [hfind] at h
      cases hrest : ddSelectCount mapped (p + 1) c with
      | none => rw [hrest] at h; simp at h
      | some rest =>
        rw [hrest] at h
        have h' : some (i :: rest) = some idx := h
        obtain ⟨hlen, hspec⟩ := ih (p + 1) rest hrest
        cases h'
        refine ⟨by simp [hlen], ?_⟩
        intro j hj
        match j with
        | 0 => simpa using hfind
        | j + 1 =>
          have hj' : j < rest.length := by simpa using hj
          have := hspec j hj'
          have harith : p + 1 + j + 1 = p + (j + 1) + 1 := by omega
          rw [harith] at this
          simpa using this

/-- On success the selected indices are in bounds, pairwise distinct, one
per percentile, and their digitized bins are the successive bin numbers. -/
theorem ddSelect_spec (mjds : List ℚ) (m : Nat) (idx : List Nat)
    (h : ddSelect mjds m = some idx) :
    idx.length = m ∧
    (∀ j (hj : j < idx.length),
      idx.get ⟨j, hj⟩ < mjds.length ∧
      (ddMapped mjds m)[idx.get ⟨j, hj⟩]? = some (j + 1)) ∧
    idx.Nodup := by
  obtain ⟨hlen, hspec⟩ := ddSelectCount_spec (ddMapped mjds m) m 0 idx h
  have hmlen : (ddMapped mjds m).length = mjds.length := by
    simp [ddMapped]
  have hbound : ∀ j (hj : j < idx.length),
      idx.get ⟨j, hj⟩ < mjds.length ∧
      (ddMapped mjds m)[idx.get ⟨j, hj⟩]? = some (j + 1) := by
    intro j hj
    have hfind := hspec j hj
    obtain ⟨hlt, hfi⟩ := List.findIdx?_eq_some_iff_findIdx_eq.mp hfind
    refine ⟨by rw [← hmlen]; exact hlt, ?_⟩
    rw [List.getElem?_eq_getElem hlt]
    have hp := @List.findIdx_getElem _
      (fun x => decide (x = 0 + j + 1)) (ddMapped mjds m) (by rw [hfi]; exact hlt)
    simp only [decide_eq_true_eq] at hp
    simp only [hfi] at hp
    rw [hp]
    simp
  refine ⟨hlen, hbound, ?_⟩
  rw [List.nodup_iff_injective_get]
  intro a b hab
  have ha := (hbound a a.isLt).2
  have hb := (hbound b b.isLt).2
  rw [hab] at ha
  have hsome := ha.symm.trans hb
  simp only [Option.some_inj] at hsome
  exact Fin.ext (by omega)

/-- The numpy sort underlying the percentile computation is a sorted
permutation of its input. -/
theorem sortedQ_sorted (xs : List ℚ) : (sortedQ xs).Sorted (· ≤ ·) :=
  List.sorted_insertionSort _ xs

/-- `sortedQ` permutes its input. -/
theorem sortedQ_perm (xs : List ℚ) : (sortedQ xs).Perm xs :=
  List.perm_insertionSort _ xs

/-- `sortedQ` preserves length. -/
theorem sortedQ_length (xs : List ℚ) : (sortedQ xs).length = xs.length :=
  (sortedQ_perm xs).length_eq

/-- The 0th percentile of a nonempty list is its minimum: a member that
bounds every element from below. -/
theorem npPercentile_zero (xs : List ℚ) (hne : xs ≠ []) :
    npPercentile xs 0 ∈ xs ∧ ∀ x ∈ xs, npPercentile xs 0 ≤ x := by
  have hn : 0 < (sortedQ xs).length := by
    rw [sortedQ_length]
    exact List.length_pos.mpr hne
  have hval : npPercentile xs 0 = (sortedQ xs)[0] := by
    unfold npPercentile
    have hpos : (0 : ℚ) * (((sortedQ xs).length : ℚ) - 1) / 100 = 0 := by ring
    have hfl : (Rat.floor (0 : ℚ)).toNat = 0 := by decide
    simp only [hpos, hfl, Nat.zero_min]
    rw [List.getD_eq_getElem _ _ hn]
    push_cast
    ring
  constructor
  · rw [hval]
    exact (sortedQ_perm xs).mem_iff.mp (List.getElem_mem hn)
  · intro x hx
    rw [hval]
    obtain ⟨k, hk⟩ := List.mem_iff_get.mp ((sortedQ_perm xs).mem_iff.mpr hx)
    rw [← hk]
    exact (sortedQ_sorted xs).rel_get_of_le
      (by rw [Fin.le_def]; exact Nat.zero_le _)

/-- The 100th percentile of a nonempty list is its maximum: a member that
bounds every element from above. -/
theorem npPercentile_hundred (xs : List ℚ) (hne : xs ≠ []) :
    npPercentile xs 100 ∈ xs ∧ ∀ x ∈ xs, x ≤ npPercentile xs 100 := by
  have hn : 0 < (sortedQ xs).length := by
    rw [sortedQ_length]
    exact List.length_pos.mpr hne
  have hlast : (sortedQ xs).length - 1 < (sortedQ xs).length := by omega
  have hval : npPercentile xs 100 = (sortedQ xs)[(sortedQ xs).length - 1] := by
    unfold npPercentile
    have hcast : (100 : ℚ) * (((sortedQ xs).length : ℚ) - 1) / 100 =
        ((((sortedQ xs).length - 1 : Nat) : Int) : ℚ) := by
      push_cast [Nat.cast_sub hn]
      ring
    have hfl : (Rat.floor (((((sortedQ xs).length - 1 : Nat) : Int)) : ℚ)).toNat =
        (sortedQ xs).length - 1 := by
      rw [show Rat.floor (((((sortedQ xs).length - 1 : Nat) : Int)) : ℚ) =
        (((sortedQ xs).length - 1 : Nat) : Int) from rfl]
      exact Int.toNat_natCast _
    simp only [hcast, hfl, Nat.min_self, Nat.min_eq_right (Nat.le_succ _)]
    rw [List.getD_eq_getElem _ _ hlast]
    push_cast [Nat.cast_sub hn]
    ring
  constructor
  · rw [hval]
    exact (sortedQ_perm xs).mem_iff.mp (List.getElem_mem hlast)
  · intro x hx
    rw [hval]
    obtain ⟨k, hk⟩ := List.mem_iff_get.mp ((sortedQ_perm xs).mem_iff.mpr hx)
    rw [← hk]
    refine (sortedQ_sorted xs).rel_get_of_le ?_
    rw [Fin.le_def]
    have hk2 := k.isLt
    simp only []
    omega

/-- The bins list has one edge per percentile. -/
theorem ddBins_length (mjds : List ℚ) (m : Nat) : (ddBins mjds m).length = m := by
  unfold ddBins npLinspace
  by_cases h0 : m = 0
  · simp [h0]
  by_cases h1 : m = 1
  · simp [h1]
  simp [h0, h1]

/-- For at least two percentiles, the first bin edge is the 0th
percentile of the data (its minimum). -/
theorem ddBins_head (mjds : List ℚ) (m : Nat) (h2 : 2 ≤ m) :
    (ddBins mjds m)[0]? = some (npPercentile mjds 0) := by
  unfold ddBins npLinspace
  rw [if_neg (by omega), if_neg (by omega)]
  rw [List.getElem?_map, List.getElem?_map, List.getElem?_range (by omega)]
  simp only [Option.map_some']
  norm_num

/-- For at least two percentiles, the last bin edge is the 100th
percentile of the data (its maximum). -/
theorem ddBins_last (mjds : List ℚ) (m : Nat) (h2 : 2 ≤ m) :
    (ddBins mjds m)[m - 1]? = some (npPercentile mjds 100) := by
  unfold ddBins npLinspace
  rw [if_neg (by omega), if_neg (by omega)]
  rw [List.getElem?_map, List.getElem?_map, List.getElem?_range (by omega)]
  simp only [Option.map_some']
  have hm : ((m : ℚ) - 1) ≠ 0 := by
    have : (2 : ℚ) ≤ (m : ℚ) := by exact_mod_cast h2
    intro hc
    nlinarith
  have hcast : ((m - 1 : Nat) : ℚ) = (m : ℚ) - 1 := by
    push_cast [Nat.cast_sub (by omega : 1 ≤ m)]
    ring
  rw [show (0 : ℚ) + (100 - 0) * ((m - 1 : Nat) : ℚ) / ((m : ℚ) - 1) = 100 by
    rw [hcast]; field_simp]

/-- `np.digitize` is monotone in its argument. -/
theorem npDigitize_mono (bins : List ℚ) {x y : ℚ} (hxy : x ≤ y) :
    npDigitize x bins ≤ npDigitize y bins := by
  unfold npDigitize
  rw [← List.countP_eq_length_filter, ← List.countP_eq_length_filter]
  refine List.countP_mono_left fun b _ hb => ?_
  simp only [decide_eq_true_eq] at *
  exact le_trans hb hxy

/-- A value digitized into the very last bin dominates every bin edge. -/
theorem npDigitize_all_le (bins : List ℚ) (x : ℚ)
    (h : npDigitize x bins = bins.length) : ∀ b ∈ bins, b ≤ x := by
  unfold npDigitize at h
  have hall := List.filter_length_eq_length.mp h
  intro b hb
  simpa using hall b hb

/-- A value at or above some bin edge is digitized into bin 1 or later. -/
theorem npDigitize_pos (bins : List ℚ) (x b : ℚ) (hb : b ∈ bins)
    (hbx : b ≤ x) : 1 ≤ npDigitize x bins := by
  unfold npDigitize
  have hmem : b ∈ bins.filter (· ≤ x) :=
    List.mem_filter.mpr ⟨hb, by simpa using hbx⟩
  have := List.length_pos.mpr (List.ne_nil_of_mem hmem)
  omega

/-- An entry of the digitized list is the digitization of the matching
data entry. -/
theorem ddMapped_getElem (mjds : List ℚ) (m : Nat) (i : Nat)
    (hi : i < mjds.length) :
    (ddMapped mjds m)[i]? = some (npDigitize mjds[i] (ddBins mjds m)) := by
  unfold ddMapped
  rw [List.getElem?_map, List.getElem?_eq_getElem hi]
  rfl

/-- Central kernel lemma: on success with at least two percentiles and an
over-cap group, the keep mask has one flag per observation, marks exactly
`m` observations, always marks an observation of maximal time, and — when
the times arrive in nondecreasing order — marks the first (earliest)
observation. -/
theorem ddKeepFlags_main (mjds : List ℚ) (m : Nat) (keeps : List Bool)
    (h2 : 2 ≤ m) (hover : m < mjds.length)
    (h : ddKeepFlags mjds m = some keeps) :
    keeps.length = mjds.length ∧
    keeps.countP id = m ∧
    (∃ i, ∃ hi : i < mjds.length, keeps[i]? = some true ∧
      ∀ x ∈ mjds, x ≤ mjds[i]) ∧
    (mjds.Chain' (· ≤ ·) → keeps[0]? = some true) := by
  obtain ⟨idx, hsel, hkeq⟩ := Option.map_eq_some'.mp h
  subst hkeq
  obtain ⟨hidxlen, hbound, hnodup⟩ := ddSelect_spec mjds m idx hsel
  have hne : mjds ≠ [] := by
    intro hc
    rw [hc] at hover
    simp at hover
  have hmemlt : ∀ i ∈ idx, i < mjds.length := by
    intro i hi
    obtain ⟨j, hj⟩ := List.mem_iff_get.mp hi
    exact hj ▸ (hbound j j.isLt).1
  have hkeepAt : ∀ i, i < mjds.length →
      ((List.range mjds.length).map fun i => idx.contains i)[i]? =
        some (idx.contains i) := by
    intro i hi
    rw [List.getElem?_map, List.getElem?_range hi]
    rfl
  refine ⟨by simp, ?_, ?_, ?_⟩
  · -- exactly m marked
    rw [List.countP_map]
    have hid : (id ∘ fun i => idx.contains i) = fun i => idx.contains i := rfl
    rw [hid, List.countP_eq_length_filter]
    have hperm : ((List.range mjds.length).filter fun i => idx.contains i).Perm
        idx := by
      rw [List.perm_ext_iff_of_nodup ((List.nodup_range _).filter _) hnodup]
      intro a
      simp only [List.mem_filter, List.mem_range, List.elem_eq_mem,
        decide_eq_true_eq]
      exact ⟨fun ha => ha.2, fun ha => ⟨hmemlt a ha, ha⟩⟩
    rw [hperm.length_eq, hidxlen]
  · -- a maximal-time observation is marked
    have hm1 : m - 1 < idx.length := by omega
    obtain ⟨histar, hmapped⟩ := hbound (m - 1) hm1
    have hdig : npDigitize mjds[idx.get ⟨m - 1, hm1⟩]
        (ddBins mjds m) = m := by
      rw [ddMapped_getElem mjds m _ histar] at hmapped
      have := Option.some_inj.mp hmapped
      omega
    have hall := npDigitize_all_le (ddBins mjds m) _
      (by rw [hdig, ddBins_length])
    have hltlast : m - 1 < (ddBins mjds m).length := by
      rw [ddBins_length]
      omega
    have hlastmem : npPercentile mjds 100 ∈ ddBins mjds m := by
      have hl := ddBins_last mjds m h2
      rw [List.getElem?_eq_getElem hltlast] at hl
      exact (Option.some_inj.mp hl) ▸ List.getElem_mem hltlast
    obtain ⟨hPmem, hPmax⟩ := npPercentile_hundred mjds hne
    refine ⟨idx.get ⟨m - 1, hm1⟩, histar, ?_, ?_⟩
    · rw [hkeepAt _ histar]
      have : idx.contains (idx.get ⟨m - 1, hm1⟩) = true := by
        simp only [List.contains, List.elem_eq_mem, decide_eq_true_eq]
        exact List.get_mem idx _ _
      rw [this]
    · intro x hx
      exact le_trans (hPmax x hx) (hall _ hlastmem)
  · -- with sorted input the earliest observation is marked
    intro hchain
    have hn0 : 0 < mjds.length := by omega
    have hmin : ∀ x ∈ mjds, mjds[0] ≤ x := by
      have hpw := List.chain'_iff_pairwise.mp hchain
      match mjds, hpw with
      | m0 :: rest, hpw =>
        intro x hx
        rcases List.mem_cons.mp hx with hx0 | hxr
        · exact le_of_eq (by rw [hx0]; rfl)
        · exact List.rel_of_pairwise_cons hpw hxr
    have h0dig : 1 ≤ npDigitize mjds[0] (ddBins mjds m) := by
      obtain ⟨hP0mem, hP0min⟩ := npPercentile_zero mjds hne
      have hlt0 : 0 < (ddBins mjds m).length := by
        rw [ddBins_length]
        omega
      have hh := ddBins_head mjds m h2
      rw [List.getElem?_eq_getElem hlt0] at hh
      exact npDigitize_pos _ _ _
        ((Option.some_inj.mp hh) ▸ List.getElem_mem hlt0)
        (hP0min _ (List.getElem_mem hn0))
    have hsel' : ddSelectCount (ddMapped mjds m) 0 m = some idx := hsel
    obtain ⟨_, hspec⟩ := ddSelectCount_spec (ddMapped mjds m) m 0 idx hsel'
    have h0lt : 0 < idx.length := by omega
    have hf := hspec 0 h0lt
    obtain ⟨hflt, hfi⟩ := List.findIdx?_eq_some_iff_findIdx_eq.mp hf
    obtain ⟨hi0lt, hmap0⟩ := hbound 0 h0lt
    have hz : idx.get ⟨0, h0lt⟩ = 0 := by
      by_contra hz
      have h0pos : 0 < idx.get ⟨0, h0lt⟩ := Nat.pos_of_ne_zero hz
      have hne1 := @List.not_of_lt_findIdx _
        (fun x => decide (x = 0 + 0 + 1)) (ddMapped mjds m) 0
        (by rw [hfi]; exact h0pos)
      have hmono := npDigitize_mono (ddBins mjds m)
        (hmin _ (List.getElem_mem hi0lt))
      rw [ddMapped_getElem mjds m _ hi0lt] at hmap0
      have hv : npDigitize mjds[idx.get ⟨0, h0lt⟩] (ddBins mjds m) =
          1 := by
        have := Option.some_inj.mp hmap0
        omega
      have hne1' : npDigitize mjds[0] (ddBins mjds m) ≠ 1 := by
        have hg0 : 0 < (ddMapped mjds m).length := by simp [ddMapped]; omega
        have hg : (ddMapped mjds m)[0] =
            npDigitize mjds[0] (ddBins mjds m) := by
          have := ddMapped_getElem mjds m 0 hn0
          rw [List.getElem?_eq_getElem hg0] at this
          exact Option.some_inj.mp this
        intro hc
        rw [hg, hc] at hne1
        simp at hne1
      omega
    rw [hkeepAt 0 hn0]
    have : idx.contains 0 = true := by
      simp only [List.contains, List.elem_eq_mem, decide_eq_true_eq]
      exact hz ▸ List.get_mem idx _ _
    rw [this]

/-- A successful `mapM` over `Option` relates inputs and outputs pointwise. -/
theorem mapM_option_forall₂ {α β : Type} (f : α → Option β) :
    ∀ (l : List α) (L : List β), l.mapM f = some L →
      List.Forall₂ (fun a b => f a = some b) l L := by
  intro l
  induction l with
  | nil =>
    intro L h
    rw [List.mapM_nil] at h
    cases h
    exact .nil
  | cons a t ih =>
    intro L h
    rw [List.mapM_cons] at h
    cases hfa : f a with
    | none => rw [hfa] at h; simp at h
    | some b =>
      rw [hfa] at h
      cases hrest : t.mapM f with
      | none => rw [hrest] at h; simp at h
      | some bs =>
        rw [hrest] at h
        have h' : some (b :: bs) = some L := h
        cases h'
        exact .cons hfa (ih bs hrest)

/-- Every row a group summary emits carries its group's key. -/
theorem groupSummary_keys (joined : List NightJoinRow) (maxObs : Nat)
    (o : String) (v : Int) (l : List DDSummaryRow)
    (h : groupSummary joined maxObs o v = some l) :
    ∀ r ∈ l, (r.orbit_id, r.night) = (o, v) := by
  obtain ⟨keeps, _, hkeq⟩ := Option.map_eq_some'.mp h
  subst hkeq
  intro r hr
  obtain ⟨rk, _, hmk⟩ := List.mem_map.mp hr
  subst hmk
  rfl

/-- The flattened summary holds no row keyed by a group absent from the
processed pair list. -/
theorem flatten_filter_none (joined : List NightJoinRow) (maxObs : Nat) :
    ∀ (ps : List (String × Int)) (L : List (List DDSummaryRow)),
      List.Forall₂ (fun p l =>
        groupSummary joined maxObs p.1 p.2 = some l) ps L →
      ∀ p0 ∉ ps,
        L.flatten.filter (fun r => (r.orbit_id, r.night) = p0) = [] := by
  intro ps L hrel
  induction hrel with
  | nil => intro p0 _; rfl
  | @cons p l ps L hpl hrest ih =>
    intro p0 hp0
    rw [List.flatten_cons, List.filter_append]
    have h1 : l.filter (fun r => (r.orbit_id, r.night) = p0) = [] := by
      rw [List.filter_eq_nil_iff]
      intro r hr
      have hk := groupSummary_keys joined maxObs p.1 p.2 l hpl r hr
      simp only [decide_eq_true_eq]
      rw [hk]
      intro hc
      exact hp0 (hc ▸ List.mem_cons_self p ps)
    rw [h1, ih p0 (fun hc => hp0 (List.mem_cons_of_mem p hc))]
    rfl

/-- For a processed group, the rows of the flattened summary keyed by that
group are exactly its group summary. -/
theorem flatten_filter_group (joined : List NightJoinRow) (maxObs : Nat) :
    ∀ (ps : List (String × Int)) (L : List (List DDSummaryRow)),
      List.Forall₂ (fun p l =>
        groupSummary joined maxObs p.1 p.2 = some l) ps L →
      ps.Nodup →
      ∀ p0 ∈ ps, ∃ l0,
        groupSummary joined maxObs p0.1 p0.2 = some l0 ∧
        L.flatten.filter (fun r => (r.orbit_id, r.night) = p0) = l0 := by
  intro ps L hrel
  induction hrel with
  | nil => intro _ p0 hp0; cases hp0
  | @cons p l ps L hpl hrest ih =>
    intro hnd p0 hp0
    obtain ⟨hpnotmem, hndtail⟩ := List.nodup_cons.mp hnd
    rcases List.mem_cons.mp hp0 with hp0h | hp0t
    · subst hp0h
      refine ⟨l, hpl, ?_⟩
      rw [List.flatten_cons, List.filter_append]
      have hl : l.filter (fun r => (r.orbit_id, r.night) = p0) = l := by
        rw [List.filter_eq_self]
        intro r hr
        simp only [decide_eq_true_eq]
        exact groupSummary_keys joined maxObs p0.1 p0.2 l hpl r hr
      rw [hl, flatten_filter_none joined maxObs ps L hrest p0 hpnotmem]
      exact List.append_nil l
    · obtain ⟨l0, hg, hfil⟩ := ih hndtail p0 hp0t
      refine ⟨l0, hg, ?_⟩
      rw [List.flatten_cons, List.filter_append]
      have hl : l.filter (fun r => (r.orbit_id, r.night) = p0) = [] := by
        rw [List.filter_eq_nil_iff]
        intro r hr
        have hk := groupSummary_keys joined maxObs p.1 p.2 l hpl r hr
        simp only [decide_eq_true_eq]
        rw [hk]
        intro hc
        exact hpnotmem ((show p = p0 from hc) ▸ hp0t)
      rw [hl, hfil]
      rfl

/-- `Forall₂` produces a related left element for every right element. -/
theorem forall₂_exists_left {α β : Type} {R : α → β → Prop} :
    ∀ {l₁ : List α} {l₂ : List β}, List.Forall₂ R l₁ l₂ →
      ∀ b ∈ l₂, ∃ a ∈ l₁, R a b := by
  intro l₁ l₂ hrel
  induction hrel with
  | nil => intro b hb; cases hb
  | @cons a l ps L hal hrest ih =>
    intro b hb
    rcases List.mem_cons.mp hb with hbh | hbt
    · exact ⟨a, List.mem_cons_self a ps, hbh ▸ hal⟩
    · obtain ⟨a', ha', hr⟩ := ih b hbt
      exact ⟨a', List.mem_cons_of_mem a ha', hr⟩

/-- Every processed pair is an over-cap group. -/
theorem overCapPairs_mem (joined : List NightJoinRow) (maxObs : Nat)
    (p : String × Int) (hp : p ∈ overCapPairs joined maxObs) :
    maxObs < (groupRows joined p.1 p.2).length := by
  unfold overCapPairs at hp
  have := (List.mem_filter.mp hp).2
  simpa using this

/-- The processed `(orbit, night)` pairs are pairwise distinct. -/
theorem overCapPairs_nodup (joined : List NightJoinRow) (maxObs : Nat) :
    (overCapPairs joined maxObs).Nodup := by
  unfold overCapPairs
  exact ((List.perm_insertionSort _ _).symm.nodup
    (List.nodup_dedup _)).filter _

/-- The mapped summary row count of a group equals the count of raised
keep flags. -/
theorem zip_keep_count (o : String) (v : Int) :
    ∀ (rows : List NightJoinRow) (keeps : List Bool),
      rows.length = keeps.length →
      (((rows.zip keeps).map fun rk =>
        (⟨o, rk.1.obs_id, v, rk.1.mjd.getD 0, rk.2⟩ : DDSummaryRow)).filter
          (·.keep)).length = keeps.countP id := by
  intro rows
  induction rows with
  | nil =>
    intro keeps hlen
    cases keeps with
    | nil => rfl
    | cons b bs => simp at hlen
  | cons r rs ih =>
    intro keeps hlen
    cases keeps with
    | nil => simp at hlen
    | cons b bs =>
      have hlen' : rs.length = bs.length := by simpa using hlen
      cases b <;>
        simp [List.filter_cons, List.countP_cons, ih bs hlen', id]

/-- Properties of one over-cap group's summary rows: one row per group
observation, exactly `maxObs` keeps, a maximal-time row kept, and — when
the group arrives in nondecreasing time order — a minimal-time row kept. -/
theorem groupSummary_spec (joined : List NightJoinRow) (maxObs : Nat)
    (o : String) (v : Int) (l : List DDSummaryRow) (h2 : 2 ≤ maxObs)
    (hover : maxObs < (groupRows joined o v).length)
    (h : groupSummary joined maxObs o v = some l) :
    l.length = (groupRows joined o v).length ∧
    (l.filter (·.keep)).length = maxObs ∧
    (∃ r ∈ l, r.keep = true ∧ ∀ r' ∈ l, r'.mjd ≤ r.mjd) ∧
    (((groupRows joined o v).map fun r => r.mjd.getD 0).Chain' (· ≤ ·) →
      ∃ r ∈ l, r.keep = true ∧ ∀ r' ∈ l, r.mjd ≤ r'.mjd) := by
  obtain ⟨keeps, hk, hleq⟩ := Option.map_eq_some'.mp h
  subst hleq
  have hmlen : ((groupRows joined o v).map fun r => r.mjd.getD 0).length =
      (groupRows joined o v).length := List.length_map _ _
  obtain ⟨hklen, hcount, ⟨i, hi, hkt, hmax⟩, hfirst⟩ :=
    ddKeepFlags_main _ maxObs keeps h2 (by rw [hmlen]; exact hover) hk
  have hrklen : (groupRows joined o v).length = keeps.length := by
    rw [hklen, hmlen]
  have hzlen : ((groupRows joined o v).zip keeps).length =
      (groupRows joined o v).length := by
    rw [List.length_zip, hrklen, Nat.min_self]
  have hmjd_mem : ∀ r' ∈ ((groupRows joined o v).zip keeps).map fun rk =>
      (⟨o, rk.1.obs_id, v, rk.1.mjd.getD 0, rk.2⟩ : DDSummaryRow),
      r'.mjd ∈ (groupRows joined o v).map fun r => r.mjd.getD 0 := by
    intro r' hr'
    obtain ⟨rk, hrk, hmk⟩ := List.mem_map.mp hr'
    subst hmk
    exact List.mem_map.mpr ⟨rk.1, (List.of_mem_zip hrk).1, rfl⟩
  have hrowAt : ∀ j (hj : j < (groupRows joined o v).length)
      (hbj : keeps[j]? = some true),
      (⟨o, ((groupRows joined o v)[j]).obs_id, v,
        ((groupRows joined o v)[j]).mjd.getD 0, true⟩ : DDSummaryRow) ∈
        ((groupRows joined o v).zip keeps).map fun rk =>
          (⟨o, rk.1.obs_id, v, rk.1.mjd.getD 0, rk.2⟩ : DDSummaryRow) := by
    intro j hj hbj
    have hjz : j < ((groupRows joined o v).zip keeps).length := by
      rw [hzlen]
      exact hj
    have hjk : j < keeps.length := by rw [← hrklen]; exact hj
    have hkj : keeps[j] = true := by
      rw [List.getElem?_eq_getElem hjk] at hbj
      exact Option.some_inj.mp hbj
    have hz : ((groupRows joined o v).zip keeps)[j] =
        ((groupRows joined o v)[j], keeps[j]) := List.getElem_zip
    have := List.getElem_mem hjz
    rw [hz] at this
    refine List.mem_map.mpr ⟨_, this, ?_⟩
    rw [hkj]
  refine ⟨?_, ?_, ?_, ?_⟩
  · rw [List.length_map, hzlen]
  · rw [zip_keep_count o v _ keeps hrklen, hcount]
  · -- a maximal-time row is kept
    have hi' : i < (groupRows joined o v).length := by rw [← hmlen]; exact hi
    refine ⟨_, hrowAt i hi' hkt, rfl, ?_⟩
    intro r' hr'
    have hmem := hmjd_mem r' hr'
    have hval : ((groupRows joined o v).map fun r => r.mjd.getD 0)[i] =
        ((groupRows joined o v)[i]).mjd.getD 0 := List.getElem_map _
    exact hval ▸ hmax r'.mjd hmem
  · -- with sorted input, a minimal-time row is kept
    intro hchain
    have h0 : 0 < (groupRows joined o v).length := by omega
    have h0m : 0 < ((groupRows joined o v).map fun r => r.mjd.getD 0).length := by
      rw [hmlen]
      exact h0
    refine ⟨_, hrowAt 0 h0 (hfirst hchain), rfl, ?_⟩
    intro r' hr'
    have hmem := hmjd_mem r' hr'
    have hmin : ∀ x ∈ (groupRows joined o v).map fun r => r.mjd.getD 0,
        (((groupRows joined o v).map fun r => r.mjd.getD 0)[0]) ≤ x := by
      have hsorted : List.Sorted (· ≤ ·)
          ((groupRows joined o v).map fun r => r.mjd.getD 0) :=
        List.chain'_iff_pairwise.mp hchain
      intro x hx
      obtain ⟨k, hk⟩ := List.mem_iff_get.mp hx
      exact hk ▸ hsorted.rel_get_of_le
        (by rw [Fin.le_def]; exact Nat.zero_le _)
    have hval : ((groupRows joined o v).map fun r => r.mjd.getD 0)[0] =
        ((groupRows joined o v)[0]).mjd.getD 0 := List.getElem_map _
    exact hval ▸ hmin r'.mjd hmem

/-- **C2** (amended).  For every `(orbit_id, night)` group whose
observation count exceeds `max_obs_per_night` (at least 2), whenever the
reducer returns a summary: every summary row belongs to an over-cap
group — groups at or below the cap produce no summary rows at all — and
within each over-cap group exactly `max_obs_per_night` observations are
marked `keep = true`, an observation of **latest** time is always among
the kept set, and an observation of **earliest** time is among the kept
set whenever the group's observations arrive in nondecreasing time order
(in particular for a night of 10 observations evenly spaced in time with
cap 6, exactly 6 are kept including both extremes — see the witness);
with unsorted input the earliest observation can be dropped (see the
counterexample). -/
theorem C2_deep_drilling_selection (members : List OrbitMember)
    (obss : List SourceObs) (maxObs : Nat) (summary : List DDSummaryRow)
    (h2 : 2 ≤ maxObs)
    (hs : reduce_deep_drilling_observations members obss maxObs =
      some summary) :
    (∀ r ∈ summary,
      (r.orbit_id, r.night) ∈
        overCapPairs (leftJoinNights members obss) maxObs ∧
      maxObs <
        (groupRows (leftJoinNights members obss) r.orbit_id r.night).length) ∧
    (∀ o v, (o, v) ∈ overCapPairs (leftJoinNights members obss) maxObs →
      (summary.filter fun r => (r.orbit_id, r.night) = (o, v)).length =
        (groupRows (leftJoinNights members obss) o v).length ∧
      ((summary.filter fun r => (r.orbit_id, r.night) = (o, v)).filter
        (·.keep)).length = maxObs ∧
      (∃ r ∈ summary.filter fun r => (r.orbit_id, r.night) = (o, v),
        r.keep = true ∧
        ∀ r' ∈ summary.filter fun r => (r.orbit_id, r.night) = (o, v),
          r'.mjd ≤ r.mjd) ∧
      (((groupRows (leftJoinNights members obss) o v).map
          fun r => r.mjd.getD 0).Chain' (· ≤ ·) →
        ∃ r ∈ summary.filter fun r => (r.orbit_id, r.night) = (o, v),
          r.keep = true ∧
          ∀ r' ∈ summary.filter fun r => (r.orbit_id, r.night) = (o, v),
            r.mjd ≤ r'.mjd)) := by
  unfold reduce_deep_drilling_observations at hs
  obtain ⟨L, hmapM, hflat⟩ := Option.map_eq_some'.mp hs
  subst hflat
  have hrel := mapM_option_forall₂ _ _ _ hmapM
  have hnd := overCapPairs_nodup (leftJoinNights members obss) maxObs
  constructor
  · intro r hr
    obtain ⟨l, hlL, hrl⟩ := List.mem_flatten.mp hr
    obtain ⟨p, hp, hgp⟩ := forall₂_exists_left hrel l hlL
    have hk := groupSummary_keys _ _ _ _ _ hgp r hrl
    have hkey : (r.orbit_id, r.night) = p := hk
    constructor
    · rw [hkey]
      exact hp
    · have := overCapPairs_mem _ _ _ hp
      have h1 : r.orbit_id = p.1 := congrArg Prod.fst hkey
      have h2' : r.night = p.2 := congrArg Prod.snd hkey
      rw [h1, h2']
      exact this
  · intro o v hov
    obtain ⟨l0, hg, hfil⟩ :=
      flatten_filter_group _ _ _ _ hrel hnd (o, v) hov
    have hover := overCapPairs_mem _ _ _ hov
    obtain ⟨hlen0, hcnt, hlast, hfirst⟩ :=
      groupSummary_spec _ _ o v l0 h2 hover hg
    rw [hfil]
    exact ⟨hlen0, hcnt, hlast, hfirst⟩

/-- Witness for C2: a night with 10 observations evenly spaced in time
(MJDs 0..9, ascending input order) and cap 6 keeps exactly 6 observations,
among them a latest one and — the input being sorted — an earliest one. -/
theorem C2_deep_drilling_selection_witness :
    ((c2evenResult.filter fun r =>
      (r.orbit_id, r.night) = ("orbitAAAA", 1)).filter (·.keep)).length = 6 ∧
    (∃ r ∈ c2evenResult.filter fun r =>
        (r.orbit_id, r.night) = ("orbitAAAA", 1),
      r.keep = true ∧
      ∀ r' ∈ c2evenResult.filter fun r =>
          (r.orbit_id, r.night) = ("orbitAAAA", 1),
        r'.mjd ≤ r.mjd) ∧
    (∃ r ∈ c2evenResult.filter fun r =>
        (r.orbit_id, r.night) = ("orbitAAAA", 1),
      r.keep = true ∧
      ∀ r' ∈ c2evenResult.filter fun r =>
          (r.orbit_id, r.night) = ("orbitAAAA", 1),
        r.mjd ≤ r'.mjd) := by
  obtain ⟨hcnt, hlast, hfirst⟩ :=
    (C2_deep_drilling_selection c2evenMembers c2evenObss 6 c2evenResult
      (by decide) (by decide)).2 "orbitAAAA" 1 (by decide) |>.2
  refine ⟨hcnt, hlast, hfirst ?_⟩
  have hlist : ((groupRows (leftJoinNights c2evenMembers c2evenObss)
      "orbitAAAA" 1).map fun r => r.mjd.getD 0) =
      [0, 1, 2, 3, 4, 5, 6, 7, 8, 9] := by decide
  rw [hlist]
  norm_num [List.chain'_cons, List.chain'_singleton]

/-! ## Join multiplicity lemmas (for C1) -/

/-- A left outer join emits at least one row per left row. -/
theorem flatMap_length_le {α β : Type} (f : α → List β) (l : List α)
    (h : ∀ a ∈ l, 1 ≤ (f a).length) : l.length ≤ (l.flatMap f).length := by
  induction l with
  | nil => simp
  | cons a t ih =>
    rw [List.flatMap_cons, List.length_append, List.length_cons]
    have h1 := h a (List.mem_cons_self a t)
    have h2 := ih fun x hx => h x (List.mem_cons_of_mem a hx)
    omega

/-- A left outer join whose output is no longer than its input matched
each left row exactly once, so any projection constant on a row's matches
is carried through unchanged. -/
theorem flatMap_map_of_length_eq {α β γ : Type} (f : α → List β)
    (l : List α) (proj : β → γ) (proj' : α → γ)
    (hmin : ∀ a ∈ l, 1 ≤ (f a).length)
    (hproj : ∀ a ∈ l, ∀ b ∈ f a, proj b = proj' a)
    (hlen : (l.flatMap f).length = l.length) :
    (l.flatMap f).map proj = l.map proj' := by
  induction l with
  | nil => simp
  | cons a t ih =>
    rw [List.flatMap_cons, List.length_append, List.length_cons] at hlen
    have h1 := hmin a (List.mem_cons_self a t)
    have h2 := flatMap_length_le f t fun x hx =>
      hmin x (List.mem_cons_of_mem a hx)
    have hfa : (f a).length = 1 := by omega
    have hrest : (t.flatMap f).length = t.length := by omega
    obtain ⟨b, hb⟩ := List.length_eq_one.mp hfa
    have hpb : proj b = proj' a :=
      hproj a (List.mem_cons_self a t) b (hb ▸ List.mem_singleton_self b)
    have hih := ih (fun x hx => hmin x (List.mem_cons_of_mem a hx))
      (fun x hx b' hb' => hproj x (List.mem_cons_of_mem a hx) b' hb') hrest
    rw [List.flatMap_cons, hb, List.map_append, hih, List.map_cons]
    simp [hpb]

/-- Under the single-match hypothesis the observation join pairs each
member with its unique catalog row: length and the
`(orbit_id, obs_id)` projection are preserved exactly. -/
theorem joinObservations_single (members : List OrbitMember)
    (obss : List SourceObs)
    (h2 : ∀ m ∈ members, (obss.filter fun o => o.id = m.obs_id).length = 1) :
    (joinObservations members obss).length = members.length ∧
    (joinObservations members obss).map
        (fun mo => (mo.1.orbit_id, mo.1.obs_id)) =
      members.map fun m => (m.orbit_id, m.obs_id) := by
  induction members with
  | nil => exact ⟨rfl, rfl⟩
  | cons m t ih =>
    obtain ⟨o, ho⟩ := List.length_eq_one.mp (h2 m (List.mem_cons_self m t))
    obtain ⟨ihlen, ihmap⟩ := ih fun x hx => h2 x (List.mem_cons_of_mem m hx)
    unfold joinObservations at *
    rw [List.flatMap_cons, ho]
    constructor
    · simp [ihlen, Nat.add_comm]
    · simp only [List.map_cons, List.map_append]
      rw [ihmap]
      rfl

/-- An `Except`-valued `mapM` that succeeds relates inputs and outputs
pointwise. -/
theorem mapM_except_forall₂ {ε α β : Type} (f : α → Except ε β) :
    ∀ (l : List α) (L : List β), l.mapM f = .ok L →
      List.Forall₂ (fun a b => f a = .ok b) l L := by
  intro l
  induction l with
  | nil =>
    intro L h
    rw [List.mapM_nil] at h
    cases h
    exact .nil
  | cons a t ih =>
    intro L h
    rw [List.mapM_cons] at h
    cases hfa : f a with
    | error e => rw [hfa] at h; simp [Bind.bind, Except.bind] at h
    | ok b =>
      rw [hfa] at h
      cases hrest : t.mapM f with
      | error e => rw [hrest] at h; simp [Bind.bind, Except.bind] at h
      | ok bs =>
        rw [hrest] at h
        have h' : (Except.ok (b :: bs) : Except ε (List β)) = .ok L := h
        cases h'
        exact .cons hfa (ih bs hrest)

/-- `Forall₂` produces a related right element for every left element. -/
theorem forall₂_exists_right {α β : Type} {R : α → β → Prop} :
    ∀ {l₁ : List α} {l₂ : List β}, List.Forall₂ R l₁ l₂ →
      ∀ a ∈ l₁, ∃ b ∈ l₂, R a b := by
  intro l₁ l₂ hrel
  induction hrel with
  | nil => intro a ha; cases ha
  | @cons a l ps L hal hrest ih =>
    intro x hx
    rcases List.mem_cons.mp hx with hxh | hxt
    · exact ⟨l, List.mem_cons_self l L, hxh ▸ hal⟩
    · obtain ⟨b, hb, hr⟩ := ih x hxt
      exact ⟨b, List.mem_cons_of_mem l hb, hr⟩

/-- Pointwise-related lists have equal projections when the relation
determines them. -/
theorem forall₂_map_eq {α β γ : Type} {R : α → β → Prop}
    (f : α → γ) (g : β → γ) :
    ∀ {l₁ : List α} {l₂ : List β}, List.Forall₂ R l₁ l₂ →
      (∀ a b, R a b → g b = f a) → l₂.map g = l₁.map f := by
  intro l₁ l₂ hrel
  induction hrel with
  | nil => intro _; rfl
  | @cons a l ps L hal hrest ih =>
    intro himp
    rw [List.map_cons, List.map_cons, himp a l hal, ih himp]

/-- Partition facts established by the finalization stage of
`prepare_submission` on success: the assertion pins the member count, the
member table projects onto the sorted join rows, the new-astrometry batch
avoids the identification batch, and the three classes cover and are
drawn from the member rows. -/
theorem prepareFinalize_partition (sid : Int) (memberCount : Nat)
    (observations : List SourceObs) (astCat : String) (omt2 : List OMTRow)
    (sm : List SubmissionMember) (ades : List AdesObs)
    (idents : List IdentRow)
    (hok : prepareFinalize sid memberCount observations astCat omt2 =
      .ok (sm, ades, idents)) :
    sm.length = memberCount ∧
    omt2.length = memberCount ∧
    (sm.map fun r => (r.orbit_id, r.obssubid)).Perm
      (omt2.map fun r => (r.orbit_id, r.obs_id)) ∧
    (∀ x ∈ ades.map (·.obsSubID), x ∉ (identItf idents).map (·.obs_id)) ∧
    (∀ r ∈ sm, r.deep_drilling_filtered = true ∨
      r.obssubid ∈ (identItf idents).map (·.obs_id) ∨
      r.obssubid ∈ ades.map (·.obsSubID)) ∧
    (∀ x ∈ ades.map (·.obsSubID),
      ∃ r ∈ sm, r.obssubid = x ∧ r.deep_drilling_filtered = false) ∧
    (∀ x ∈ (identItf idents).map (·.obs_id),
      (∃ r ∈ sm, r.obssubid = x) ∧
      ∀ r ∈ sm, r.obssubid = x → r.deep_drilling_filtered = false) := by
  unfold prepareFinalize at hok
  simp only [] at hok
  cases hsm : mkSubmissionMembers sid
      (omt2.insertionSort fun a b => omtLe a b) with
  | none =>
    rw [hsm] at hok
    exact absurd hok (by simp [Bind.bind, Except.bind])
  | some sm0 =>
  rw [hsm] at hok
  simp only [Bind.bind, Except.bind] at hok
  cases hid : mkIdentifications sid
      (omt2.insertionSort fun a b => omtLe a b) sm0 with
  | error e =>
    rw [hid] at hok
    exact absurd hok (by simp)
  | ok idents0 =>
  rw [hid] at hok
  simp only [] at hok
  cases hades : mkAdes astCat (joinNewObservations
      ((sm0.filter fun m => !m.deep_drilling_filtered).filter fun m =>
        !((identItf idents0).map (·.obs_id)).contains m.obssubid)
      observations) with
  | error e =>
    rw [hades] at hok
    exact absurd hok (by simp)
  | ok ades0 =>
  rw [hades] at hok
  simp only [] at hok
  by_cases hlen : sm0.length = memberCount
  case neg =>
    rw [if_neg hlen] at hok
    exact absurd hok (by simp)
  case pos =>
  rw [if_pos hlen] at hok
  have htriple : (sm0, ades0, idents0) = (sm, ades, idents) := by
    simpa using hok
  obtain ⟨hsm', hades', hid'⟩ :
      sm = sm0 ∧ ades = ades0 ∧ idents = idents0 := by
    refine ⟨(congrArg Prod.fst htriple).symm, ?_, ?_⟩
    · exact (congrArg Prod.fst (congrArg Prod.snd htriple)).symm
    · exact (congrArg Prod.snd (congrArg Prod.snd htriple)).symm
  subst hsm' hades' hid'
  -- pointwise structure of the member table
  have hrelSM := mapM_option_forall₂ _ _ _ hsm
  have hsmPairs : sm.map (fun r => (r.orbit_id, r.obssubid)) =
      (omt2.insertionSort fun a b => omtLe a b).map
        fun r => (r.orbit_id, r.obs_id) := by
    refine forall₂_map_eq _ _ hrelSM ?_
    intro r smrow hR
    obtain ⟨t, _, hbuilt⟩ := Option.map_eq_some'.mp hR
    rw [← hbuilt]
  have hsortPerm : (omt2.insertionSort fun a b => omtLe a b).Perm omt2 :=
    List.perm_insertionSort _ _
  have hsmLen : sm.length = omt2.length := by
    rw [← hrelSM.length_eq]
    exact hsortPerm.length_eq
  have hrelAdes := mapM_except_forall₂ _ _ _ hades
  -- every ades row's obsSubID is the obssubid of a new member
  have hadesSrc : ∀ a ∈ ades, ∃ m ∈
      (sm.filter fun m => !m.deep_drilling_filtered).filter (fun m =>
        !((identItf idents).map (·.obs_id)).contains m.obssubid),
      a.obsSubID = m.obssubid := by
    intro a ha
    obtain ⟨mo, hmo, hR⟩ := forall₂_exists_left hrelAdes a ha
    have hmo' : mo ∈ (((sm.filter fun m => !m.deep_drilling_filtered).filter
        fun m => !((identItf idents).map (·.obs_id)).contains m.obssubid).flatMap
        fun m => match observations.filter (fun o => o.id = m.obssubid) with
          | [] => [(m, none)]
          | l => l.map fun o => (m, some o)) := by
      exact (List.perm_insertionSort _ _).mem_iff.mp hmo
    obtain ⟨m, hm, hmem⟩ := List.mem_flatMap.mp hmo'
    have hmo1 : mo.1 = m := by
      rcases hfil : observations.filter (fun o => o.id = m.obssubid) with
        _ | ⟨o, l⟩
      · rw [hfil] at hmem
        simp only [List.mem_singleton] at hmem
        rw [hmem]
      · rw [hfil] at hmem
        obtain ⟨o', _, hmo2⟩ := List.mem_map.mp hmem
        rw [← hmo2]
    rcases hsnd : mo.2 with _ | o
    · rw [hsnd] at hR
      simp at hR
    · rw [hsnd] at hR
      have ha' : a = ⟨mo.1.trksub, mo.1.obssubid, o.days, o.nanos, o.ra,
          o.dec, o.ra_sigma / 3600, o.dec_sigma / 3600, o.mag, o.mag_sigma,
          o.filter, o.observatory_code, "CCD", astCat⟩ := by
        have := hR
        simp only [Except.ok.injEq] at this
        exact this.symm
      exact ⟨m, hm, by rw [ha', ← hmo1]⟩
  -- every new member yields an ades row on success
  have hnewAdes : ∀ m ∈ (sm.filter fun m =>
      !m.deep_drilling_filtered).filter (fun m =>
        !((identItf idents).map (·.obs_id)).contains m.obssubid),
      m.obssubid ∈ ades.map (·.obsSubID) := by
    intro m hm
    have hpair : ∃ mo ∈ joinNewObservations
        ((sm.filter fun m => !m.deep_drilling_filtered).filter fun m =>
          !((identItf idents).map (·.obs_id)).contains m.obssubid)
        observations, mo.1 = m := by
      unfold joinNewObservations
      rcases hfil : observations.filter (fun o => o.id = m.obssubid) with
        _ | ⟨o, l⟩
      · refine ⟨(m, none), ?_, rfl⟩
        refine (List.perm_insertionSort _ _).mem_iff.mpr ?_
        refine List.mem_flatMap.mpr ⟨m, hm, ?_⟩
        rw [hfil]
        exact List.mem_singleton_self _
      · refine ⟨(m, some o), ?_, rfl⟩
        refine (List.perm_insertionSort _ _).mem_iff.mpr ?_
        refine List.mem_flatMap.mpr ⟨m, hm, ?_⟩
        rw [hfil]
        exact List.mem_map.mpr ⟨o, List.mem_cons_self o l, rfl⟩
    obtain ⟨mo, hmo, hmo1⟩ := hpair
    obtain ⟨a, ha, hR⟩ := forall₂_exists_right hrelAdes mo hmo
    rcases hsnd : mo.2 with _ | o
    · rw [hsnd] at hR
      simp at hR
    · rw [hsnd] at hR
      simp only [Except.ok.injEq] at hR
      refine List.mem_map.mpr ⟨a, ha, ?_⟩
      rw [← hR, ← hmo1]
  refine ⟨hlen, hsmLen ▸ hlen, hsmPairs ▸ hsortPerm.map _, ?_, ?_, ?_, ?_⟩
  · -- the new-astrometry batch avoids the identification batch
    intro x hx
    obtain ⟨a, ha, hax⟩ := List.mem_map.mp hx
    obtain ⟨m, hm, ham⟩ := hadesSrc a ha
    have hmf := (List.mem_filter.mp hm).2
    intro hcontra
    rw [← hax, ham] at hcontra
    simp only [List.contains, List.elem_eq_mem, Bool.not_eq_true',
      decide_eq_false_iff_not] at hmf
    exact hmf hcontra
  · -- every member row is deep-drilling-filtered, identified, or new
    intro r hr
    by_cases hdd : r.deep_drilling_filtered = true
    · exact Or.inl hdd
    by_cases hitf : r.obssubid ∈ (identItf idents).map (·.obs_id)
    · exact Or.inr (Or.inl hitf)
    · refine Or.inr (Or.inr ?_)
      apply hnewAdes
      refine List.mem_filter.mpr ⟨List.mem_filter.mpr ⟨hr, ?_⟩, ?_⟩
      · simp only [Bool.not_eq_true'] at hdd ⊢
        exact Bool.not_eq_true r.deep_drilling_filtered ▸ hdd
      · simp only [List.contains, List.elem_eq_mem, Bool.not_eq_true',
          decide_eq_false_iff_not]
        exact hitf
  · -- the new-astrometry batch is drawn from unfiltered member rows
    intro x hx
    obtain ⟨a, ha, hax⟩ := List.mem_map.mp hx
    obtain ⟨m, hm, ham⟩ := hadesSrc a ha
    have hm1 := List.mem_filter.mp hm
    have hm2 := List.mem_filter.mp hm1.1
    refine ⟨m, hm2.1, by rw [← ham, hax], ?_⟩
    simpa using hm2.2
  · -- the identification batch is drawn from member rows, none of which
    -- are deep-drilling-filtered
    intro x hx
    obtain ⟨ident, hident, hidx⟩ := List.mem_map.mp hx
    have hidmem : ident ∈ idents := (List.mem_filter.mp hident).1
    unfold mkIdentifications at hid
    by_cases hbr : ((sm.filter fun m => !m.deep_drilling_filtered).filter
        fun m => m.itf_obs_id ≠ none) ≠ []
    · rw [if_pos hbr] at hid
      have hrelId := mapM_except_forall₂ _ _ _ hid
      obtain ⟨r, hrimf, hRid⟩ := forall₂_exists_left hrelId ident hidmem
      have hrs := List.mem_filter.mp hrimf
      have hrs1 := List.mem_filter.mp hrs.1
      have hnotdd := hrs.2
      have hobs : ident.obs_id = r.obs_id := by
        rcases htr : orbit_id_to_trksub r.orbit_id with _ | t <;>
          rcases hro : r.obs with _ | o <;>
          rw [htr, hro] at hRid <;> simp at hRid
        rw [← hRid]
      have hx' : x = r.obs_id := by rw [← hidx, hobs]
      constructor
      · obtain ⟨smrow, hsmrow, hRsm⟩ :=
          forall₂_exists_right hrelSM r hrs1.1
        obtain ⟨t, _, hbuilt⟩ := Option.map_eq_some'.mp hRsm
        refine ⟨smrow, hsmrow, ?_⟩
        rw [← hbuilt, hx']
      · intro r' hr' hr'x
        by_contra hddc
        have hddc' : r'.deep_drilling_filtered = true := by
          simpa using hddc
        have hin : r'.obssubid ∈
            (sm.filter (·.deep_drilling_filtered)).map (·.obssubid) :=
          List.mem_map.mpr ⟨r', List.mem_filter.mpr
            ⟨hr', by simpa using hddc'⟩, rfl⟩
        rw [hr'x, hx'] at hin
        simp only [List.contains, List.elem_eq_mem, Bool.not_eq_true',
          decide_eq_false_iff_not] at hnotdd
        exact hnotdd hin
    · rw [if_neg hbr] at hid
      have : idents = [] := by
        have h' : (Except.ok [] : Except PrepareError (List IdentRow)) =
          .ok idents := hid
        cases h'
        rfl
      rw [this] at hidmem
      cases hidmem

/-- The deep-drilling tagging join emits at least one row per input row
and, when it duplicates nothing, preserves the `(orbit_id, obs_id)`
projection. -/
theorem joinDeepDrilling_facts (rows : List (OrbitMember × Option SourceObs))
    (dds : List DDSummaryRow) :
    rows.length ≤ (joinDeepDrilling rows dds).length ∧
    ((joinDeepDrilling rows dds).length = rows.length →
      (joinDeepDrilling rows dds).map (fun r => (r.orbit_id, r.obs_id)) =
        rows.map fun mo => (mo.1.orbit_id, mo.1.obs_id)) := by
  have hmin : ∀ mo ∈ rows, 1 ≤ (match dds.filter
      (fun (d : DDSummaryRow) => d.obs_id = mo.1.obs_id) with
    | [] => [(⟨mo.1.orbit_id, mo.1.obs_id, mo.2, false, none, none⟩ : OMTRow)]
    | l => l.map fun (d : DDSummaryRow) =>
        (⟨mo.1.orbit_id, mo.1.obs_id, mo.2, !d.keep, none, none⟩ : OMTRow)).length := by
    intro mo _
    rcases hf : dds.filter (fun d => d.obs_id = mo.1.obs_id) with _ | ⟨d, l⟩ <;>
      simp [hf]
  have hproj : ∀ mo ∈ rows, ∀ b ∈ (match dds.filter
      (fun (d : DDSummaryRow) => d.obs_id = mo.1.obs_id) with
    | [] => [(⟨mo.1.orbit_id, mo.1.obs_id, mo.2, false, none, none⟩ : OMTRow)]
    | l => l.map fun (d : DDSummaryRow) =>
        (⟨mo.1.orbit_id, mo.1.obs_id, mo.2, !d.keep, none, none⟩ : OMTRow)),
      (b.orbit_id, b.obs_id) = (mo.1.orbit_id, mo.1.obs_id) := by
    intro mo _ b hb
    rcases hf : dds.filter (fun d => d.obs_id = mo.1.obs_id) with _ | ⟨d, l⟩
    · rw [hf] at hb
      simp only [List.mem_singleton] at hb
      rw [hb]
    · rw [hf] at hb
      obtain ⟨d', _, hb'⟩ := List.mem_map.mp hb
      rw [← hb']
  exact ⟨flatMap_length_le _ rows hmin,
    fun hlen => flatMap_map_of_length_eq _ rows _ _ hmin hproj hlen⟩

/-- The crossmatch join emits at least one row per input row and, when it
duplicates nothing, preserves the `(orbit_id, obs_id)` projection. -/
theorem joinCrossmatch_facts (rows : List OMTRow)
    (survivors : List MPCCrossmatchRow) :
    rows.length ≤ (joinCrossmatch rows survivors).length ∧
    ((joinCrossmatch rows survivors).length = rows.length →
      (joinCrossmatch rows survivors).map (fun r => (r.orbit_id, r.obs_id)) =
        rows.map fun r => (r.orbit_id, r.obs_id)) := by
  have hmin : ∀ r ∈ rows, 1 ≤ (match survivors.filter
      (fun (x : MPCCrossmatchRow) => x.obs_id = r.obs_id) with
    | [] => [r]
    | l => l.map fun (x : MPCCrossmatchRow) =>
        { r with mpc_obs_id := some x.mpc_id,
                 mpc_trksub := x.trksub }).length := by
    intro r _
    rcases hf : survivors.filter (fun x => x.obs_id = r.obs_id) with _ | ⟨x, l⟩ <;>
      simp [hf]
  have hproj : ∀ r ∈ rows, ∀ b ∈ (match survivors.filter
      (fun (x : MPCCrossmatchRow) => x.obs_id = r.obs_id) with
    | [] => [r]
    | l => l.map fun (x : MPCCrossmatchRow) =>
        { r with mpc_obs_id := some x.mpc_id,
                 mpc_trksub := x.trksub }),
      (b.orbit_id, b.obs_id) = (r.orbit_id, r.obs_id) := by
    intro r _ b hb
    rcases hf : survivors.filter (fun x => x.obs_id = r.obs_id) with _ | ⟨x, l⟩
    · rw [hf] at hb
      simp only [List.mem_singleton] at hb
      rw [hb]
    · rw [hf] at hb
      obtain ⟨x', _, hb'⟩ := List.mem_map.mp hb
      rw [← hb']
  exact ⟨flatMap_length_le _ rows hmin,
    fun hlen => flatMap_map_of_length_eq _ rows _ _ hmin hproj hlen⟩

/-- On success the masking/join/deep-drilling stage emits at least one row
per orbit member and, when it duplicates nothing, preserves the
`(orbit_id, obs_id)` projection. -/
theorem prepareOmt1_facts (orbits : List String)
    (orbit_members : List OrbitMember) (observations : List SourceObs)
    (maxObs : Option Nat) (omt1 : List OMTRow)
    (h1 : ∀ m ∈ orbit_members, m.orbit_id ∈ orbits)
    (h2 : ∀ m ∈ orbit_members,
      (observations.filter fun o => o.id = m.obs_id).length = 1)
    (h : prepareOmt1 orbits orbit_members observations maxObs = .ok omt1) :
    orbit_members.length ≤ omt1.length ∧
    (omt1.length = orbit_members.length →
      omt1.map (fun r => (r.orbit_id, r.obs_id)) =
        orbit_members.map fun m => (m.orbit_id, m.obs_id)) := by
  have hmask : maskMembers orbits orbit_members = orbit_members := by
    unfold maskMembers
    rw [List.filter_eq_self]
    intro m hm
    simp only [List.contains, List.elem_eq_mem, decide_eq_true_eq]
    exact h1 m hm
  obtain ⟨hjl, hjp⟩ := joinObservations_single orbit_members observations h2
  unfold prepareOmt1 at h
  rw [hmask] at h
  simp only [] at h
  cases maxObs with
  | none =>
    have h' : (Except.ok
        ((joinObservations orbit_members observations).map fun mo =>
          (⟨mo.1.orbit_id, mo.1.obs_id, mo.2, false, none, none⟩ : OMTRow)) :
        Except PrepareError (List OMTRow)) = .ok omt1 := h
    cases h'
    constructor
    · rw [List.length_map, hjl]
    · intro _
      rw [List.map_map]
      exact hjp
  | some m =>
    have hm : (match reduce_deep_drilling_observations orbit_members
        observations m with
      | some dds => (Except.ok
          (joinDeepDrilling (joinObservations orbit_members observations)
            dds) : Except PrepareError (List OMTRow))
      | none => Except.error PrepareError.indexError) = .ok omt1 := h
    cases hdd : reduce_deep_drilling_observations orbit_members observations
        m with
    | none => rw [hdd] at hm; exact absurd hm (by simp)
    | some dds =>
      rw [hdd] at hm
      have h' : (Except.ok
          (joinDeepDrilling (joinObservations orbit_members observations)
            dds) : Except PrepareError (List OMTRow)) = .ok omt1 := hm
      cases h'
      obtain ⟨hge, hpr⟩ :=
        joinDeepDrilling_facts (joinObservations orbit_members observations)
          dds
      constructor
      · rw [← hjl]
        exact hge
      · intro hlen
        rw [hpr (by rw [hlen, hjl]), hjp]

/-- The stage facts of a successful `prepare_submission` run combine into
the member partition: the member table is in bijection with the orbit
members, and the identification / new-astrometry / deep-drilling classes
are disjoint, member-sourced and covering. -/
theorem C1_assemble (sid : Int) (orbit_members : List OrbitMember)
    (observations : List SourceObs) (astCat : String)
    (omt1 omt2 : List OMTRow) (sm : List SubmissionMember)
    (ades : List AdesObs) (idents : List IdentRow)
    (hlow : orbit_members.length ≤ omt1.length)
    (hproj : omt1.length = orbit_members.length →
      omt1.map (fun r => (r.orbit_id, r.obs_id)) =
        orbit_members.map fun m => (m.orbit_id, m.obs_id))
    (hshape : omt2 = omt1 ∨
      ∃ survivors, omt2 = joinCrossmatch omt1 survivors)
    (hfin : prepareFinalize sid orbit_members.length observations astCat
      omt2 = .ok (sm, ades, idents)) :
    sm.length = orbit_members.length ∧
    (sm.map fun r => (r.orbit_id, r.obssubid)).Perm
      (orbit_members.map fun m => (m.orbit_id, m.obs_id)) ∧
    (∀ x ∈ ades.map (·.obsSubID), x ∉ (identItf idents).map (·.obs_id)) ∧
    (∀ r ∈ sm, r.deep_drilling_filtered = true ∨
      r.obssubid ∈ (identItf idents).map (·.obs_id) ∨
      r.obssubid ∈ ades.map (·.obsSubID)) ∧
    (∀ x ∈ ades.map (·.obsSubID),
      ∃ r ∈ sm, r.obssubid = x ∧ r.deep_drilling_filtered = false) ∧
    (∀ x ∈ (identItf idents).map (·.obs_id),
      (∃ r ∈ sm, r.obssubid = x) ∧
      ∀ r ∈ sm, r.obssubid = x → r.deep_drilling_filtered = false) := by
  obtain ⟨hsmlen, homt2len, hperm, hdisj, hcover, hadesSrc, hidSrc⟩ :=
    prepareFinalize_partition sid orbit_members.length observations astCat
      omt2 sm ades idents hfin
  have hpairs : omt2.map (fun r => (r.orbit_id, r.obs_id)) =
      orbit_members.map fun m => (m.orbit_id, m.obs_id) := by
    rcases hshape with h | ⟨survivors, h⟩
    · subst h
      exact hproj homt2len
    · subst h
      obtain ⟨hge, hpres⟩ := joinCrossmatch_facts omt1 survivors
      rw [hpres (by omega)]
      exact hproj (by omega)
  refine ⟨hsmlen, ?_, hdisj, hcover, hadesSrc, hidSrc⟩
  rw [← hpairs]
  exact hperm

/-- **C1.** When every orbit member references a listed orbit and each
referenced `obs_id` occurs exactly once in the observation catalog, a
successful `prepare_submission` returns exactly one `SubmissionMembers`
row per input orbit member (the member table's `(orbit_id, obs_id)` pairs
are a permutation of the input's), the identification (ITF) batch and the
new-astrometry (ADES) batch are disjoint, every member row is
deep-drilling-filtered or in exactly one of the two batches, and both
batches draw only from non-filtered member rows — so the two batches plus
the filtered rows exactly cover the input orbit-member set. -/
theorem C1_prepare_submission_partition (sid : Int) (orbits : List String)
    (orbit_members : List OrbitMember) (observations : List SourceObs)
    (maxObs : Option Nat) (xm : Option (List MPCCrossmatchRow))
    (astCat : String) (sm : List SubmissionMember) (ades : List AdesObs)
    (idents : List IdentRow)
    (h1 : ∀ m ∈ orbit_members, m.orbit_id ∈ orbits)
    (h2 : ∀ m ∈ orbit_members,
      (observations.filter fun o => o.id = m.obs_id).length = 1)
    (hok : prepare_submission sid orbits orbit_members observations maxObs
      xm astCat = .ok (sm, ades, idents)) :
    sm.length = orbit_members.length ∧
    (sm.map fun r => (r.orbit_id, r.obssubid)).Perm
      (orbit_members.map fun m => (m.orbit_id, m.obs_id)) ∧
    (∀ x ∈ ades.map (·.obsSubID), x ∉ (identItf idents).map (·.obs_id)) ∧
    (∀ r ∈ sm, r.deep_drilling_filtered = true ∨
      r.obssubid ∈ (identItf idents).map (·.obs_id) ∨
      r.obssubid ∈ ades.map (·.obsSubID)) ∧
    (∀ x ∈ ades.map (·.obsSubID),
      ∃ r ∈ sm, r.obssubid = x ∧ r.deep_drilling_filtered = false) ∧
    (∀ x ∈ (identItf idents).map (·.obs_id),
      (∃ r ∈ sm, r.obssubid = x) ∧
      ∀ r ∈ sm, r.obssubid = x → r.deep_drilling_filtered = false) := by
  have hmask : maskMembers orbits orbit_members = orbit_members := by
    unfold maskMembers
    rw [List.filter_eq_self]
    intro m hm
    simp only [List.contains, List.elem_eq_mem, decide_eq_true_eq]
    exact h1 m hm
  unfold prepare_submission at hok
  simp only [] at hok
  rw [hmask] at hok
  cases homt1 : prepareOmt1 orbits orbit_members observations maxObs with
  | error e =>
    rw [homt1] at hok
    exact absurd hok (by simp [Bind.bind, Except.bind])
  | ok omt1 =>
  rw [homt1] at hok
  obtain ⟨hlow, hproj⟩ := prepareOmt1_facts orbits orbit_members observations
    maxObs omt1 h1 h2 homt1
  cases xm with
  | none =>
    have hfin : prepareFinalize sid orbit_members.length observations astCat
        omt1 = .ok (sm, ades, idents) := hok
    exact C1_assemble sid orbit_members observations astCat omt1 omt1 sm
      ades idents hlow hproj (Or.inl rfl) hfin
  | some xmL =>
    have h3 : (if crossmatchSurvivors xmL (omt1.map fun r => r.obs_id) ≠ []
        then
          if crossmatchOffending
              (crossmatchSurvivors xmL (omt1.map fun r => r.obs_id)) ≠ []
          then
            Bind.bind (Except.error (PrepareError.crossmatchStatus
                ((crossmatchOffending
                  (crossmatchSurvivors xmL
                    (omt1.map fun r => r.obs_id))).take 5)))
              (fun omt2 => prepareFinalize sid orbit_members.length
                observations astCat omt2)
          else
            Bind.bind (Except.ok (joinCrossmatch omt1
                (crossmatchSurvivors xmL (omt1.map fun r => r.obs_id))))
              (fun omt2 => prepareFinalize sid orbit_members.length
                observations astCat omt2)
        else
          Bind.bind (Except.ok omt1)
            (fun omt2 => prepareFinalize sid orbit_members.length
              observations astCat omt2)) = Except.ok (sm, ades, idents) :=
      hok
    by_cases hs : crossmatchSurvivors xmL (omt1.map fun r => r.obs_id) = []
    · rw [if_neg (not_not_intro hs)] at h3
      have hfin : prepareFinalize sid orbit_members.length observations
          astCat omt1 = .ok (sm, ades, idents) := h3
      exact C1_assemble sid orbit_members observations astCat omt1 omt1 sm
        ades idents hlow hproj (Or.inl rfl) hfin
    · rw [if_pos hs] at h3
      by_cases ho : crossmatchOffending
          (crossmatchSurvivors xmL (omt1.map fun r => r.obs_id)) = []
      · rw [if_neg (not_not_intro ho)] at h3
        have hfin : prepareFinalize sid orbit_members.length observations
            astCat (joinCrossmatch omt1
              (crossmatchSurvivors xmL (omt1.map fun r => r.obs_id))) =
            .ok (sm, ades, idents) := h3
        exact C1_assemble sid orbit_members observations astCat omt1
          (joinCrossmatch omt1
            (crossmatchSurvivors xmL (omt1.map fun r => r.obs_id)))
          sm ades idents hlow hproj (Or.inr ⟨_, rfl⟩) hfin
      · rw [if_pos ho] at h3
        exact absurd h3 (by simp [Bind.bind, Except.bind])

/-- Witness for C1: on the single-member scenario (one orbit member whose
observation occurs exactly once in the catalog, deep-drilling cap 6, no
crossmatch) the build succeeds with exactly one member row whose
`(orbit_id, obs_id)` pair is the input pair. -/
theorem C1_prepare_submission_partition_witness :
    smW.length = [memX1].length ∧
    (smW.map fun r => (r.orbit_id, r.obssubid)).Perm
      ([memX1].map fun m => (m.orbit_id, m.obs_id)) := by
  obtain ⟨hA, hB, -⟩ := C1_prepare_submission_partition 7 ["orbitAAAA"]
    [memX1] [obsX1] (some 6) none "Gaia2" smW adesW [] (by decide)
    (by decide) (by rfl)
  exact ⟨hA, hB⟩

end Mpcq
